import Mathlib

/-!
Shallow embedding of the pyop matrix-free linear-operator library
(src/pyop/linop.py, src/pyop/block.py, src/pyop/convert.py,
src/pyop/error.py, src/pyop/utilities.py).

Numeric arrays are modelled over the integers; numpy ndarrays of rank
0, 1, 2 and 3 are modelled explicitly (pyop's shape discipline rejects
rank 0 and rank > 2 before any kernel runs).  Python exceptions are
modelled as an inductive error type mirroring the classes in
src/pyop/error.py plus the builtin ValueError/AssertionError used
directly by the source.  Opaque Python function objects are modelled as
a payload function together with a numeric object identity, since
LinearOperator.__eq__ compares function objects by identity.
-/

namespace Pyop

/-- Python exceptions raised by the pyop source.  Constructors carry the
formatted payload strings built by the corresponding `__init__` in
src/pyop/error.py.  `kind` below recovers the Python class name. -/
inductive PyErr where
  | assertionError
  | valueError (msg : String)
  | dimensionMismatch (msg : String)
  | allDimensionMismatch (msg : String)
  | innerDimensionMismatch (shape1 shape2 : String)
  | zeroDimension (shape : String)
  | highOrderTensor (shape : String)
  | missingAdjoint
deriving DecidableEq, Repr

/-- The Python class of the exception (`type(e).__name__`).  In
src/pyop/error.py, DimensionMismatch and AllDimensionMismatch subclass
ValueError, and InnerDimensionMismatch / ZeroDimension /
HighOrderTensor subclass DimensionMismatch, but each is its own
distinct class; a bare `raise ValueError(...)` in linop.py / block.py
produces the builtin ValueError class itself. -/
def PyErr.kind : PyErr → String
  | .assertionError => "AssertionError"
  | .valueError _ => "ValueError"
  | .dimensionMismatch _ => "DimensionMismatch"
  | .allDimensionMismatch _ => "AllDimensionMismatch"
  | .innerDimensionMismatch _ _ => "InnerDimensionMismatch"
  | .zeroDimension _ => "ZeroDimension"
  | .highOrderTensor _ => "HighOrderTensor"
  | .missingAdjoint => "MissingAdjoint"

/-- Decidable equality for `Except`, so that concrete runs of the
model can be checked by `decide`. -/
instance {ε α : Type} [DecidableEq ε] [DecidableEq α] :
    DecidableEq (Except ε α) := fun a b =>
  match a, b with
  | .error e, .error f =>
      if h : e = f then .isTrue (by rw [h])
      else .isFalse (by intro hc; cases hc; exact h rfl)
  | .error _, .ok _ => .isFalse (by intro hc; cases hc)
  | .ok _, .error _ => .isFalse (by intro hc; cases hc)
  | .ok x, .ok y =>
      if h : x = y then .isTrue (by rw [h])
      else .isFalse (by intro hc; cases hc; exact h rfl)

/-- numpy ndarrays of rank 0..3 over the integers.  Rank-2 data is a
row list of row vectors; numpy arrays are rectangular, which is stated
as a hypothesis (`RectMat`) where a proof needs it. -/
inductive NDArray where
  | scalar (x : Int)
  | vec (v : List Int)
  | mat (m : List (List Int))
  | cube (t : List (List (List Int)))
deriving DecidableEq, Repr

/-- Row length of a rank-2 array (numpy `shape[1]`), read off the first
row as numpy does for a rectangular array. -/
def width (m : List (List Int)) : Nat := (m.headD []).length

/-- Rectangularity of a rank-2 array: every row has length `c`. -/
def RectMat (m : List (List Int)) (c : Nat) : Prop := ∀ row ∈ m, row.length = c

instance (m : List (List Int)) (c : Nat) : Decidable (RectMat m c) :=
  inferInstanceAs (Decidable (∀ row ∈ m, row.length = c))

/-- numpy's `x.shape`, as a list of (Python-int) dimensions. -/
def NDArray.shape : NDArray → List Int
  | .scalar _ => []
  | .vec v => [(v.length : Int)]
  | .mat m => [(m.length : Int), (width m : Int)]
  | .cube t =>
      [(t.length : Int), ((t.headD []).length : Int),
        (((t.headD []).headD []).length : Int)]

/-- numpy `shape[0]`, defaulting on rank 0 (the rank-0 case is rejected by
`upgradeShapeToMatrix` before this value is ever consulted). -/
def NDArray.leadingDim (x : NDArray) : Int := x.shape.headD 0

/-- Python `str` of an int tuple such as `(2, 3)`. -/
def pairStr (p : Int × Int) : String :=
  "(" ++ toString p.1 ++ ", " ++ toString p.2 ++ ")"

/-- Python `str` of a shape tuple: `()`, `(3,)`, `(2, 3)`, ... -/
def shapeStr (l : List Int) : String :=
  match l with
  | [] => "()"
  | [a] => "(" ++ toString a ++ ",)"
  | a :: rest =>
      "(" ++ toString a ++
        (rest.map (fun b => ", " ++ toString b)).foldl (· ++ ·) "" ++ ")"

/-- An opaque Python function object: the computation it performs plus
an object identity (`id()` in Python), because `LinearOperator.__eq__`
compares the stored callables by identity.  Applying a function may
raise, hence the `Except` result. -/
structure Fn where
  fid : Nat
  app : NDArray → Except PyErr NDArray

/-- The LinearOperator class of src/pyop/linop.py.  `adjoint = none`
models the `__missingAdjoint` sentinel stored when no adjoint is
supplied (the sentinel is a single static function, so two
adjoint-less operators hold the identical object and identity
comparison against the sentinel is exactly the `none` test). -/
structure LinearOperator where
  shape : Int × Int
  forward : Fn
  adjoint : Option Fn

/-- Model of `LinearOperator.__repr__`: renders the shape and the two function
objects; the function reprs are memory addresses, abstracted here.
Only the exception *kind* of errors built from this string is ever
inspected by the properties below. -/
def opStr (A : LinearOperator) : String :=
  "LinearOperator(" ++ pairStr A.shape ++ ", <function>, <function>)"

/-- Model of `LinearOperator.__upgradeShapeToMatrix` (linop.py lines 144-153):
rank-1 shapes become single-column matrix shapes, rank-2 pass through,
rank 0 and rank > 2 are rejected. -/
def upgradeShapeToMatrix (s : List Int) : Except PyErr (Int × Int) :=
  match s with
  | [] => .error (.zeroDimension (shapeStr s))
  | [n] => .ok (n, 1)
  | [r, c] => .ok (r, c)
  | _ => .error (.highOrderTensor (shapeStr s))

/-- The message of the `DimensionMismatch` raised when a forward kernel
returns a result of the wrong shape (linop.py lines 169-173). -/
def dimMismatchMsg (shp rs : Int × Int) : String :=
  "Forward of LinearOperator did not return a result " ++
  "congruent with its shape " ++ pairStr shp ++ ". " ++
  "Result shape " ++ pairStr rs

/-- Model of `LinearOperator.__call__` (linop.py lines 156-175): upgrade the
input's shape (rejecting rank 0 / rank > 2), check the inner dimension
against `shape[1]`, run the forward kernel, then check that the result
shape upgrades to `(rows, input_columns)`. -/
def LinearOperator.call (A : LinearOperator) (x : NDArray) :
    Except PyErr NDArray :=
  match upgradeShapeToMatrix x.shape with
  | .error e => .error e
  | .ok xs =>
    if A.shape.2 = x.leadingDim then
      match A.forward.app x with
      | .error e => .error e
      | .ok result =>
        match upgradeShapeToMatrix result.shape with
        | .error e => .error e
        | .ok rs =>
          if rs = (A.shape.1, xs.2) then .ok result
          else .error (.dimensionMismatch (dimMismatchMsg A.shape rs))
    else .error (.innerDimensionMismatch (pairStr A.shape) (shapeStr x.shape))

/-- The validation performed by `LinearOperator.__init__` on a shape
already known to be a 2-tuple of Python ints (linop.py lines 92-95);
every construction of a LinearOperator in the source funnels through
this check.  (The integer check on lines 89-90 is vacuous here because
the model's shape entries are integers by type.) -/
def initChecked (r c : Int) (fwd : Fn) (adj : Option Fn) :
    Except PyErr LinearOperator :=
  if r ≤ 0 ∨ c ≤ 0 then
    .error (.valueError "shape of LinearOperator must be positive.")
  else .ok ⟨(r, c), fwd, adj⟩

/-- A dynamically typed element of the shape argument handed to the
constructor: a Python int, or an object of any other class. -/
inductive PyElem where
  | pyInt (n : Int)
  | nonInt
deriving DecidableEq, Repr

/-- The dynamically typed shape argument of `LinearOperator.__init__`:
a sized sequence that is or is not a tuple. -/
structure PyShapeArg where
  isTuple : Bool
  elems : List PyElem
deriving DecidableEq, Repr

/-- Model of `LinearOperator.__init__` (linop.py lines 78-95) on a dynamic shape
argument: `assert len(shape) == 2 and isinstance(shape, tuple)` raises
AssertionError, then non-int entries and non-positive entries each
raise ValueError; otherwise the operator is built. -/
def LinearOperator.init (shape : PyShapeArg) (fwd : Fn) (adj : Option Fn) :
    Except PyErr LinearOperator :=
  if shape.elems.length = 2 ∧ shape.isTuple = true then
    match shape.elems with
    | [.pyInt r, .pyInt c] => initChecked r c fwd adj
    | _ => .error (.valueError "shape of LinearOperator contain integers")
  else .error .assertionError

/-- The transpose property `LinearOperator.T` (linop.py lines 108-127):
raises MissingAdjoint when the stored adjoint is the sentinel,
otherwise rebuilds through `__init__` with the shape reversed and
forward/adjoint swapped (so the positivity check of `__init__` runs
again on the reversed shape). -/
def LinearOperator.T (A : LinearOperator) : Except PyErr LinearOperator :=
  match A.adjoint with
  | none => .error .missingAdjoint
  | some adj => initChecked A.shape.2 A.shape.1 adj (some A.forward)

/-- Model of `LinearOperator.__eq__` (linop.py lines 287-297): shapes must be
equal and the stored forward and adjoint callables must be the
identical function objects (Python `==` on plain functions is identity
comparison; two missing-adjoint operators share the one sentinel). -/
def LinearOperator.eq (a b : LinearOperator) : Bool :=
  decide (a.shape = b.shape) &&
    a.forward.fid == b.forward.fid &&
    (a.adjoint.map Fn.fid) == (b.adjoint.map Fn.fid)

/-- The `isinstance(other, LinearOperator)` branch of
`LinearOperator.__mul__` (linop.py lines 226-238): operator
composition.  The inner-dimension check raises
`InnerDimensionMismatch(self, other)` (the operators themselves are
the payloads); on success a new operator is built through `__init__`
with forward `x ↦ A(B(x))` and adjoint `x ↦ B.T(A.T(x))`
(`other.T` is evaluated before the argument `self.T(x)`, hence the
order of the transpose computations).  `fidF`/`fidA` are the object
identities of the two freshly created lambdas. -/
def LinearOperator.mulOp (A B : LinearOperator) (fidF fidA : Nat) :
    Except PyErr LinearOperator :=
  if A.shape.2 = B.shape.1 then
    initChecked A.shape.1 B.shape.2
      ⟨fidF, fun x =>
        match B.call x with
        | .error e => .error e
        | .ok bx => A.call bx⟩
      (some ⟨fidA, fun x =>
        match B.T with
        | .error e => .error e
        | .ok Bt =>
          match A.T with
          | .error e => .error e
          | .ok At =>
            match At.call x with
            | .error e => .error e
            | .ok mid => Bt.call mid⟩)
  else .error (.innerDimensionMismatch (opStr A) (opStr B))

/-! ### numpy helpers used by pyop (convert.py, utilities.py, block.py) -/

/-- Dot product of two integer lists (truncating like `zipWith`; the
callers below only reach it with equal lengths). -/
def dotL (a b : List Int) : Int := (List.zipWith (fun x y => x * y) a b).sum

/-- numpy `m.dot(v)` for a rank-2 `m` and rank-1 `v`: one dot product per
row of `m`. -/
def matVec (m : List (List Int)) (v : List Int) : List Int :=
  m.map (fun row => dotL row v)

/-- numpy transpose of a rectangular rank-2 array. -/
def npTranspose (m : List (List Int)) : List (List Int) :=
  (List.range (width m)).map (fun j => m.map (fun row => row.getD j 0))

/-- numpy `m.dot(n)` for rank-2 `m` and `n`: the standard matrix product. -/
def matMul (m n : List (List Int)) : List (List Int) :=
  m.map (fun row => (npTranspose n).map (fun col => dotL row col))

/-- numpy `m.dot(x)` for a fixed rank-2 `m` and an ndarray argument, the
forward (and, with `m` transposed, adjoint) kernel installed by
`toLinearOperator` (convert.py line 60).  numpy raises ValueError when
the inner dimensions disagree; rank-0 operands are likewise rejected.
(`__call__` checks the inner dimension and the input rank first, so an
operator built from `m` never reaches those branches.) -/
def npDot (m : List (List Int)) (x : NDArray) : Except PyErr NDArray :=
  match x with
  | .vec v =>
      if v.length = width m then .ok (.vec (matVec m v))
      else .error (.valueError "shapes not aligned")
  | .mat n =>
      if n.length = width m then .ok (.mat (matMul m n))
      else .error (.valueError "shapes not aligned")
  | _ => .error (.valueError "dot operand rank not supported")

/-- numpy `np.ravel`: row-major flattening to a rank-1 array. -/
def npRavel : NDArray → NDArray
  | .scalar x => .vec [x]
  | .vec v => .vec v
  | .mat m => .vec m.flatten
  | .cube t => .vec (t.map List.flatten).flatten

/-- numpy `x.reshape(-1, 1)` of a rank-1 array: the single-column matrix. -/
def colMat (v : List Int) : List (List Int) := v.map (fun a => [a])

/-- The `matmat` decorator (utilities.py lines 23-87): a rank-1 input
is reshaped to a single column before calling the wrapped kernel and
the result is ravelled back to rank 1; any other input passes through
unchanged.  (The sparse pass-through branch is outside this model.) -/
def matmat (f : NDArray → Except PyErr NDArray) :
    NDArray → Except PyErr NDArray :=
  fun x =>
    match x with
    | .vec v =>
      match f (.mat (colMat v)) with
      | .error e => .error e
      | .ok res => .ok (npRavel res)
    | _ => f x

/-- Running cumulative sums, as `numpy.cumsum` on a list of sizes. -/
def cumsum (l : List Int) : List Int :=
  match l with
  | [] => []
  | x :: xs => x :: (cumsum xs).map (fun s => x + s)

/-- Worker for `npVsplit`: `pos` rows have already been consumed, the
remaining absolute split indices are `idx`. -/
def npVsplitGo (m : List (List Int)) (pos : Int) (idx : List Int) :
    List (List (List Int)) :=
  match idx with
  | [] => [m]
  | i :: rest =>
      m.take (i - pos).toNat :: npVsplitGo (m.drop (i - pos).toNat) i rest

/-- numpy `np.vsplit(m, idx)` for increasing non-negative split indices:
pieces `m[0:i1], m[i1:i2], ..., m[ik:]`. -/
def npVsplit (m : List (List Int)) (idx : List Int) :
    List (List (List Int)) :=
  npVsplitGo m 0 idx

/-- Elementwise numpy `+` for the operand combinations pyop's
combinators produce: the Python-int start value `0` of `sum(...)`
broadcast against an array, and two arrays of identical rank and
shape.  Other broadcasting combinations are not modelled and return
the numpy broadcast error. -/
def npAdd : NDArray → NDArray → Except PyErr NDArray
  | .scalar a, .scalar b => .ok (.scalar (a + b))
  | .scalar a, .vec w => .ok (.vec (w.map (fun y => a + y)))
  | .scalar a, .mat n => .ok (.mat (n.map (fun row => row.map (fun y => a + y))))
  | .vec v, .scalar b => .ok (.vec (v.map (fun y => y + b)))
  | .mat m, .scalar b => .ok (.mat (m.map (fun row => row.map (fun y => y + b))))
  | .vec v, .vec w =>
      if v.length = w.length then .ok (.vec (List.zipWith (· + ·) v w))
      else .error (.valueError "operands could not be broadcast together")
  | .mat m, .mat n =>
      if m.length = n.length ∧ width m = width n then
        .ok (.mat (List.zipWith (fun r s => List.zipWith (· + ·) r s) m n))
      else .error (.valueError "operands could not be broadcast together")
  | _, _ => .error (.valueError "operands could not be broadcast together")

/-- One input array as a stack of rows, as `np.vstack` treats it:
rank-0 becomes a 1×1 block, rank-1 a single row, rank-2 its own rows. -/
def rowsOf : NDArray → Except PyErr (List (List Int))
  | .scalar a => .ok [[a]]
  | .vec v => .ok [v]
  | .mat m => .ok m
  | .cube _ => .error (.valueError "vstack of rank-3 input not modelled")

/-- numpy `np.vstack`: concatenate the row blocks, requiring every row to
share the first row's length (numpy's dimension check). -/
def npVstack (xs : List NDArray) : Except PyErr NDArray :=
  match xs.mapM rowsOf with
  | .error e => .error e
  | .ok rss =>
    let all := rss.flatten
    let r0 := all.headD []
    if all.all (fun r => r.length = r0.length) then .ok (.mat all)
    else .error (.valueError "all the input array dimensions must match")

/-! ### convert.py -/

/-- Model of `toLinearOperator` (convert.py lines 17-60): rejects rank-1 and
rank-3+ inputs with ValueError; a rank-0 input slips past both rank
checks and trips the `assert` inside `__init__` (its shape `()` has
length 0); a rank-2 input yields the operator whose forward is `m.dot`
and whose adjoint is `m.T.dot`. -/
def toLinearOperator (x : NDArray) (fidF fidA : Nat) :
    Except PyErr LinearOperator :=
  match x with
  | .vec _ => .error (.valueError "Cannot convert 1D to LinearOperator")
  | .cube _ => .error (.valueError "Cannot convert 3+D to LinearOperator")
  | .scalar _ => .error .assertionError
  | .mat m =>
      LinearOperator.init ⟨true, [.pyInt (m.length : Int), .pyInt (width m : Int)]⟩
        ⟨fidF, npDot m⟩ (some ⟨fidA, npDot (npTranspose m)⟩)

/-! ### block.py -/

/-- Model of the body wrapped by `@matmat` in `__horzcat` (block.py lines
221-244): split the input's rows at the children's cumulative column
counts, apply each child to its slice, and `sum(...)` the results
(Python's builtin `sum`, starting from the int `0`).  `np.vsplit`
requires a rank-≥2 input; `matmat` has already promoted rank-1 inputs,
and pyop's `__call__` never passes rank-0/rank-3 data to a kernel. -/
def horzcatCore (blocks : List LinearOperator) (x : NDArray) :
    Except PyErr NDArray :=
  match x with
  | .mat m =>
      let pieces := npVsplit m (cumsum (blocks.map (fun b => b.shape.2)))
      (blocks.zip pieces).foldlM
        (fun acc bv =>
          match bv.1.call (.mat bv.2) with
          | .error e => .error e
          | .ok r => npAdd acc r)
        (NDArray.scalar 0)
  | _ => .error (.valueError "vsplit only works on arrays of 2 or more dimensions")

/-- Model of the body wrapped by `@matmat` in `__vertcat` (block.py lines
247-260): apply every child to the whole input and `np.vstack` the
results in child order. -/
def vertcatCore (blocks : List LinearOperator) (x : NDArray) :
    Except PyErr NDArray :=
  match blocks.mapM (fun b => b.call x) with
  | .error e => .error e
  | .ok rs => npVstack rs

/-- Model of `hstack` (block.py lines 264-307): empty-list and row-mismatch
checks raise ValueError; then the children's transposes are taken
eagerly (the list comprehension `[h.T for h in blocks]` runs while the
constructor's arguments are evaluated) and the composite operator is
built through `__init__`.  `fidF`/`fidA` are the identities of the two
new closures. -/
def hstack (blocks : List LinearOperator) (fidF fidA : Nat) :
    Except PyErr LinearOperator :=
  match blocks with
  | [] => .error (.valueError "Horizontal concatenation of empty list.")
  | b0 :: _ =>
    let rows := b0.shape.1
    let cols := (blocks.map (fun b => b.shape.2)).sum
    if blocks.all (fun b => b.shape.1 = rows) then
      match blocks.mapM LinearOperator.T with
      | .error e => .error e
      | .ok ts =>
          initChecked rows cols
            ⟨fidF, matmat (horzcatCore blocks)⟩
            (some ⟨fidA, matmat (vertcatCore ts)⟩)
    else
      .error (.valueError
        "Block operator horizontal concatenation failed: row mismatch.")

/-- Model of `vstack` (block.py lines 311-355), the column dual of `hstack`:
forward concatenates the children's outputs, adjoint splits and sums
through the children's (eagerly taken) transposes. -/
def vstackOp (blocks : List LinearOperator) (fidF fidA : Nat) :
    Except PyErr LinearOperator :=
  match blocks with
  | [] => .error (.valueError "Vertical concatenation of empty list.")
  | b0 :: _ =>
    let rows := (blocks.map (fun b => b.shape.1)).sum
    let cols := b0.shape.2
    if blocks.all (fun b => b.shape.2 = cols) then
      match blocks.mapM LinearOperator.T with
      | .error e => .error e
      | .ok ts =>
          initChecked rows cols
            ⟨fidF, matmat (vertcatCore blocks)⟩
            (some ⟨fidA, matmat (horzcatCore ts)⟩)
    else
      .error (.valueError
        "Block operator vertical concatenation failed: column mismatch.")

/-- Model of `bmat` (block.py lines 91-137): each row of blocks is horizontally
stacked, then the row operators are vertically stacked.  The source
reuses fresh closures per stack; their identities never matter to the
properties below, so one id pair is threaded through. -/
def bmat (blocks : List (List LinearOperator)) (fidF fidA : Nat) :
    Except PyErr LinearOperator :=
  if blocks.length = 0 then
    .error (.valueError "Empty list supplied to block operator.")
  else
    match blocks.mapM (fun row => hstack row fidF fidA) with
    | .error e => .error e
    | .ok rows => vstackOp rows fidF fidA

/-- Model of the body wrapped by `@matmat` in `blockDiag`'s `forwardFunction`
(block.py lines 184-197): split the input's rows at the children's
cumulative column counts, apply each child's forward to its slice, and
`np.vstack` the results. -/
def blockDiagForwardCore (blocks : List LinearOperator) (x : NDArray) :
    Except PyErr NDArray :=
  match x with
  | .mat m =>
      let pieces := npVsplit m (cumsum (blocks.map (fun b => b.shape.2)))
      match (blocks.zip pieces).mapM (fun bv => bv.1.call (.mat bv.2)) with
      | .error e => .error e
      | .ok rs => npVstack rs
  | _ => .error (.valueError "vsplit only works on arrays of 2 or more dimensions")

/-- Model of `b.T(v)` as it appears inside `blockDiag`'s `adjointFunction`
(block.py line 209): the transpose property is evaluated lazily, at
every application, then called on the slice. -/
def applyT (b : LinearOperator) (v : List (List Int)) : Except PyErr NDArray :=
  match b.T with
  | .error e => .error e
  | .ok bt => bt.call (.mat v)

/-- Model of the body wrapped by `@matmat` in `blockDiag`'s `adjointFunction`
(block.py lines 200-213): split at the children's cumulative row
counts and apply each child's transpose. -/
def blockDiagAdjointCore (blocks : List LinearOperator) (x : NDArray) :
    Except PyErr NDArray :=
  match x with
  | .mat m =>
      let pieces := npVsplit m (cumsum (blocks.map (fun b => b.shape.1)))
      match (blocks.zip pieces).mapM (fun bv => applyT bv.1 bv.2) with
      | .error e => .error e
      | .ok rs => npVstack rs
  | _ => .error (.valueError "vsplit only works on arrays of 2 or more dimensions")

/-- Model of `blockDiag` (block.py lines 141-218): empty-list check, additive
shape, and the two `@matmat`-wrapped splitting kernels.  (The source
computes the splitting indices once at construction; the kernels here
recompute the same `cumsum` of the children's immutable shapes at each
call, which is observationally identical.) -/
def blockDiag (blocks : List LinearOperator) (fidF fidA : Nat) :
    Except PyErr LinearOperator :=
  if blocks.length = 0 then
    .error (.valueError "Empty list supplied to diagonal block operator.")
  else
    initChecked ((blocks.map (fun b => b.shape.1)).sum)
      ((blocks.map (fun b => b.shape.2)).sum)
      ⟨fidF, matmat (blockDiagForwardCore blocks)⟩
      (some ⟨fidA, matmat (blockDiagAdjointCore blocks)⟩)

/-! ### Supporting lemmas -/

theorem width_eq_of_rect {m : List (List Int)} {c : Nat}
    (hne : m ≠ []) (hc : RectMat m c) : width m = c := by
  cases m with
  | nil => exact absurd rfl hne
  | cons row rest => exact hc row (List.mem_cons_self _ _)

theorem length_npTranspose (m : List (List Int)) :
    (npTranspose m).length = width m := by
  simp [npTranspose]

theorem rect_npTranspose (m : List (List Int)) :
    RectMat (npTranspose m) m.length := by
  intro row hrow
  simp only [npTranspose, List.mem_map] at hrow
  obtain ⟨j, _, rfl⟩ := hrow
  simp

theorem length_matVec (m : List (List Int)) (v : List Int) :
    (matVec m v).length = m.length := by
  simp [matVec]

theorem length_matMul (m n : List (List Int)) :
    (matMul m n).length = m.length := by
  simp [matMul]

theorem width_matMul {m : List (List Int)} (n : List (List Int))
    (hne : m ≠ []) : width (matMul m n) = width n := by
  cases m with
  | nil => exact absurd rfl hne
  | cons row rest => simp [matMul, width, length_npTranspose]

/-! ### Claim theorems -/

/-- C1: for every 2-D matrix `m` (with positive shape), the operator
built by `toLinearOperator` applies as the matrix product `m·x` on
every rank-1 or rank-2 input whose leading dimension equals `m`'s
column count, and its transpose applies as the transpose-matrix
product `mᵀ·y` on every compatible input. -/
theorem C1_matrix_adapter (m : List (List Int)) (c : Nat) (fidF fidA : Nat)
    (hr0 : 0 < m.length) (hc : RectMat m c) (hc0 : 0 < c) :
    ∃ M, toLinearOperator (.mat m) fidF fidA = .ok M ∧
      M.shape = ((m.length : Int), (c : Int)) ∧
      (∀ x : List Int, x.length = c →
        M.call (.vec x) = .ok (.vec (matVec m x))) ∧
      (∀ X k, X.length = c → RectMat X k →
        M.call (.mat X) = .ok (.mat (matMul m X))) ∧
      ∃ Mt, M.T = .ok Mt ∧
        Mt.shape = ((c : Int), (m.length : Int)) ∧
        (∀ y : List Int, y.length = m.length →
          Mt.call (.vec y) = .ok (.vec (matVec (npTranspose m) y))) ∧
        (∀ Y k, Y.length = m.length → RectMat Y k →
          Mt.call (.mat Y) = .ok (.mat (matMul (npTranspose m) Y))) := by
  have hmne : m ≠ [] := List.length_pos.mp hr0
  have hwidth : width m = c := width_eq_of_rect hmne hc
  have hM : toLinearOperator (.mat m) fidF fidA =
      .ok ⟨((m.length : Int), (c : Int)), ⟨fidF, npDot m⟩,
        some ⟨fidA, npDot (npTranspose m)⟩⟩ := by
    simp only [toLinearOperator, LinearOperator.init]
    rw [if_pos ⟨rfl, trivial⟩]
    unfold initChecked
    rw [hwidth,
      if_neg (by push_neg
                 exact ⟨by exact_mod_cast hr0, by exact_mod_cast hc0⟩)]
  refine ⟨_, hM, rfl, ?_, ?_, ?_⟩
  · intro x hx
    simp only [LinearOperator.call, NDArray.shape, upgradeShapeToMatrix,
      NDArray.leadingDim, List.headD]
    rw [if_pos (by exact_mod_cast hx.symm)]
    simp only [npDot, hwidth, if_pos hx]
    simp only [NDArray.shape, upgradeShapeToMatrix, length_matVec]
    simp
  · intro X k hX hXr
    simp only [LinearOperator.call, NDArray.shape, upgradeShapeToMatrix,
      NDArray.leadingDim, List.headD]
    rw [if_pos (by exact_mod_cast hX.symm)]
    simp only [npDot, hwidth, if_pos hX]
    simp only [NDArray.shape, upgradeShapeToMatrix, length_matMul,
      width_matMul X hmne]
    simp
  · have hT : (LinearOperator.T
        ⟨((m.length : Int), (c : Int)), ⟨fidF, npDot m⟩,
          some ⟨fidA, npDot (npTranspose m)⟩⟩) =
        .ok ⟨((c : Int), (m.length : Int)), ⟨fidA, npDot (npTranspose m)⟩,
          some ⟨fidF, npDot m⟩⟩ := by
      simp only [LinearOperator.T, initChecked]
      rw [if_neg (by push_neg
                     exact ⟨by exact_mod_cast hc0, by exact_mod_cast hr0⟩)]
    have hlt : (npTranspose m).length = c := by rw [length_npTranspose, hwidth]
    have htne : npTranspose m ≠ [] := by
      intro hcon
      rw [hcon] at hlt
      simp at hlt
      omega
    have hwt : width (npTranspose m) = m.length :=
      width_eq_of_rect htne (rect_npTranspose m)
    refine ⟨_, hT, rfl, ?_, ?_⟩
    · intro y hy
      simp only [LinearOperator.call, NDArray.shape, upgradeShapeToMatrix,
        NDArray.leadingDim, List.headD]
      rw [if_pos (by exact_mod_cast hy.symm)]
      simp only [npDot, hwt, if_pos hy]
      simp only [NDArray.shape, upgradeShapeToMatrix, length_matVec, hlt]
      simp
    · intro Y k hY hYr
      simp only [LinearOperator.call, NDArray.shape, upgradeShapeToMatrix,
        NDArray.leadingDim, List.headD]
      rw [if_pos (by exact_mod_cast hY.symm)]
      simp only [npDot, hwt, if_pos hY]
      simp only [NDArray.shape, upgradeShapeToMatrix, length_matMul,
        width_matMul Y htne, hlt]
      simp

/-- C1 witness: the adapter on `[[1,2],[3,4]]` maps `[1,1]` to `[3,7]`
(the convert.py docstring example) and its transpose maps `[1,0]`
to `[1,2]`. -/
theorem C1_matrix_adapter_witness :
    (0 < ([[1, 2], [3, 4]] : List (List Int)).length ∧
      RectMat [[1, 2], [3, 4]] 2) ∧
    ∃ M, toLinearOperator (.mat [[1, 2], [3, 4]]) 1 2 = .ok M ∧
      M.call (.vec [1, 1]) = .ok (.vec [3, 7]) ∧
      ∃ Mt, M.T = .ok Mt ∧ Mt.call (.vec [1, 0]) = .ok (.vec [1, 2]) := by
  refine ⟨⟨by decide, by decide⟩, ?_⟩
  obtain ⟨M, hM, _, hvec, _, Mt, hMt, _, hty, _⟩ :=
    C1_matrix_adapter [[1, 2], [3, 4]] 2 1 2 (by decide) (by decide) (by decide)
  refine ⟨M, hM, ?_, Mt, hMt, ?_⟩
  · rw [hvec [1, 1] rfl]; decide
  · rw [hty [1, 0] rfl]; decide

/-- A concrete identity-like kernel with object identity `n`, used for
the concrete operators of the witnesses. -/
def idFn (n : Nat) : Fn := ⟨n, fun x => .ok x⟩

/-- A concrete 2×3 operator with an adjoint (the kernels are never
invoked by the statements that use it). -/
def exOpA : LinearOperator := ⟨(2, 3), idFn 5, some (idFn 7)⟩

/-- C2: for an operator constructed with an adjoint, the double
transpose returns an operator that is literally `A` again — same
shape, same forward/adjoint pairing — so it agrees with `A` on every
input and compares equal under `__eq__`; the transpose only swaps the
stored callables and reverses the shape. -/
theorem C2_transpose_involutive (A : LinearOperator) (f : Fn)
    (hadj : A.adjoint = some f) (h1 : 0 < A.shape.1) (h2 : 0 < A.shape.2) :
    ∃ B, A.T = .ok B ∧
      B.shape = (A.shape.2, A.shape.1) ∧
      B.forward = f ∧ B.adjoint = some A.forward ∧
      B.T = .ok A ∧
      (∀ A2, B.T = .ok A2 →
        (∀ x, A2.call x = A.call x) ∧ LinearOperator.eq A2 A = true) := by
  obtain ⟨⟨r, c⟩, fwd, adj⟩ := A
  simp only at hadj h1 h2
  subst hadj
  have hB : LinearOperator.T ⟨(r, c), fwd, some f⟩ = .ok ⟨(c, r), f, some fwd⟩ := by
    simp only [LinearOperator.T, initChecked]
    rw [if_neg (by push_neg; exact ⟨by omega, by omega⟩)]
  have hBT : LinearOperator.T ⟨(c, r), f, some fwd⟩ = .ok ⟨(r, c), fwd, some f⟩ := by
    simp only [LinearOperator.T, initChecked]
    rw [if_neg (by push_neg; exact ⟨by omega, by omega⟩)]
  refine ⟨_, hB, rfl, rfl, rfl, hBT, ?_⟩
  intro A2 hA2
  rw [hBT] at hA2
  cases hA2
  exact ⟨fun x => rfl, by simp [LinearOperator.eq]⟩

/-- C2 witness: the double transpose of the concrete operator `exOpA`
is `exOpA` itself and compares equal to it. -/
theorem C2_transpose_involutive_witness :
    exOpA.adjoint = some (idFn 7) ∧ 0 < exOpA.shape.1 ∧ 0 < exOpA.shape.2 ∧
    ∃ B, exOpA.T = .ok B ∧ B.T = .ok exOpA ∧
      LinearOperator.eq exOpA exOpA = true := by
  obtain ⟨B, hB, _, _, _, hBT, hagree⟩ :=
    C2_transpose_involutive exOpA (idFn 7) rfl (by decide) (by decide)
  exact ⟨rfl, by decide, by decide, B, hB, hBT, (hagree exOpA hBT).2⟩

/-- C4: applying any operator to a rank-1 or rank-2 input whose
leading dimension differs from the operator's column count raises
`InnerDimensionMismatch` carrying the operator's shape and the input's
shape, and the result does not depend on the stored forward kernel
(the kernel is never invoked); the input is never truncated or
padded. -/
theorem C4_inner_dimension_guard (A : LinearOperator) (x : NDArray)
    (hrank : x.shape.length = 1 ∨ x.shape.length = 2)
    (hmis : A.shape.2 ≠ x.leadingDim) :
    A.call x =
      .error (.innerDimensionMismatch (pairStr A.shape) (shapeStr x.shape)) ∧
    ∀ g : Fn, LinearOperator.call ⟨A.shape, g, A.adjoint⟩ x =
      .error (.innerDimensionMismatch (pairStr A.shape) (shapeStr x.shape)) := by
  constructor
  · cases x with
    | scalar a => simp [NDArray.shape] at hrank
    | cube t => simp [NDArray.shape] at hrank
    | vec v =>
        simp only [LinearOperator.call, NDArray.shape, upgradeShapeToMatrix]
        rw [if_neg hmis]
    | mat m =>
        simp only [LinearOperator.call, NDArray.shape, upgradeShapeToMatrix]
        rw [if_neg hmis]
  · intro g
    cases x with
    | scalar a => simp [NDArray.shape] at hrank
    | cube t => simp [NDArray.shape] at hrank
    | vec v =>
        simp only [LinearOperator.call, NDArray.shape, upgradeShapeToMatrix]
        rw [if_neg hmis]
    | mat m =>
        simp only [LinearOperator.call, NDArray.shape, upgradeShapeToMatrix]
        rw [if_neg hmis]

/-- C4 witness: the 2×3 operator rejects a length-2 vector with the
mismatch error carrying both shapes, whatever its kernel computes. -/
theorem C4_inner_dimension_guard_witness :
    ((NDArray.vec [1, 2]).shape.length = 1 ∨
      (NDArray.vec [1, 2]).shape.length = 2) ∧
    exOpA.shape.2 ≠ (NDArray.vec [1, 2]).leadingDim ∧
    exOpA.call (.vec [1, 2]) =
      .error (.innerDimensionMismatch "(2, 3)" "(2,)") ∧
    LinearOperator.call ⟨exOpA.shape, idFn 99, exOpA.adjoint⟩ (.vec [1, 2]) =
      .error (.innerDimensionMismatch "(2, 3)" "(2,)") := by
  obtain ⟨h1, h2⟩ :=
    C4_inner_dimension_guard exOpA (.vec [1, 2]) (by decide) (by decide)
  exact ⟨by decide, by decide, h1, h2 (idFn 99)⟩

/-- C5: for an operator built by the constructor, the transpose
property fails with `MissingAdjoint` exactly when no adjoint was
supplied, and succeeds whenever one was. -/
theorem C5_missing_adjoint_iff (sh : PyShapeArg) (f : Fn) (adj : Option Fn)
    (A : LinearOperator) (hA : LinearOperator.init sh f adj = .ok A) :
    (A.T = .error .missingAdjoint ↔ adj = none) ∧
    (∀ g, adj = some g → ∃ B, A.T = .ok B) := by
  simp only [LinearOperator.init] at hA
  split at hA
  · split at hA
    · rename_i r c heq
      simp only [initChecked] at hA
      split at hA
      · cases hA
      · cases hA
        rename_i hpos
        push_neg at hpos
        cases adj with
        | none =>
            refine ⟨⟨fun _ => rfl, fun _ => rfl⟩, ?_⟩
            intro g hg
            cases hg
        | some g =>
            have hT : LinearOperator.T ⟨(r, c), f, some g⟩ =
                .ok ⟨(c, r), g, some f⟩ := by
              simp only [LinearOperator.T, initChecked]
              rw [if_neg (by push_neg; exact ⟨hpos.2, hpos.1⟩)]
            refine ⟨⟨fun hcon => ?_, fun hcon => by cases hcon⟩, ?_⟩
            · rw [hT] at hcon
              cases hcon
            · intro g2 hg2
              exact ⟨_, hT⟩
    · cases hA
  · cases hA

/-- C5 witness: constructing with shape `(2, 3)` and no adjoint makes
the transpose raise `MissingAdjoint`; with an adjoint it succeeds. -/
theorem C5_missing_adjoint_iff_witness :
    ∃ A, LinearOperator.init ⟨true, [.pyInt 2, .pyInt 3]⟩ (idFn 5) none = .ok A ∧
      (A.T = .error .missingAdjoint ↔ (none : Option Fn) = none) ∧
      ∃ A2, LinearOperator.init ⟨true, [.pyInt 2, .pyInt 3]⟩ (idFn 5)
          (some (idFn 7)) = .ok A2 ∧
        ∃ B, A2.T = .ok B := by
  have h1 : LinearOperator.init ⟨true, [.pyInt 2, .pyInt 3]⟩ (idFn 5) none =
      .ok ⟨(2, 3), idFn 5, none⟩ := rfl
  have h2 : LinearOperator.init ⟨true, [.pyInt 2, .pyInt 3]⟩ (idFn 5)
      (some (idFn 7)) = .ok ⟨(2, 3), idFn 5, some (idFn 7)⟩ := rfl
  obtain ⟨hiff, _⟩ := C5_missing_adjoint_iff _ _ _ _ h1
  obtain ⟨_, hsucc⟩ := C5_missing_adjoint_iff _ _ _ _ h2
  exact ⟨_, h1, hiff, _, h2, hsucc (idFn 7) rfl⟩

/-- A concrete 1×1 operator with no adjoint. -/
def exOpNoAdj : LinearOperator := ⟨(1, 1), idFn 0, none⟩

/-- A concrete 2×1 operator with no adjoint (row count differs from
`exOpNoAdj`). -/
def exOpRows2 : LinearOperator := ⟨(2, 1), idFn 1, none⟩

/-- A concrete 1×2 operator with no adjoint (column count differs from
`exOpNoAdj`). -/
def exOpCols2 : LinearOperator := ⟨(1, 2), idFn 2, none⟩

/-- C8 counterexample: the empty-list failure and the row-mismatch
failure of `hstack` (and the corresponding `vstack` failures) are all
raised as the one generic builtin `ValueError` class, so they are not
discriminable by exception kind — refuting distinct
`EmptyList`/`RowMismatch`/`ColumnMismatch` kinds. -/
theorem C8_counterexample :
    hstack [] 0 0 =
      .error (.valueError "Horizontal concatenation of empty list.") ∧
    hstack [exOpNoAdj, exOpRows2] 0 0 =
      .error (.valueError
        "Block operator horizontal concatenation failed: row mismatch.") ∧
    vstackOp [] 0 0 =
      .error (.valueError "Vertical concatenation of empty list.") ∧
    vstackOp [exOpNoAdj, exOpCols2] 0 0 =
      .error (.valueError
        "Block operator vertical concatenation failed: column mismatch.") ∧
    PyErr.kind (.valueError "Horizontal concatenation of empty list.") =
      PyErr.kind (.valueError
        "Block operator horizontal concatenation failed: row mismatch.") ∧
    PyErr.kind (.valueError "Vertical concatenation of empty list.") =
      PyErr.kind (.valueError
        "Block operator vertical concatenation failed: column mismatch.") := by
  refine ⟨rfl, ?_, rfl, ?_, rfl, rfl⟩
  · rfl
  · rfl

/-- C8 amended: the block validation failures all carry the generic
`ValueError` kind and are distinguishable only by their message text:
`hstack` on an empty list and on a row mismatch, and `vstack` on an
empty list and on a column mismatch, each raise `ValueError` with the
corresponding fixed message. -/
theorem C8_amended (fidF fidA : Nat) (b0 : LinearOperator)
    (rest : List LinearOperator) :
    hstack [] fidF fidA =
      .error (.valueError "Horizontal concatenation of empty list.") ∧
    vstackOp [] fidF fidA =
      .error (.valueError "Vertical concatenation of empty list.") ∧
    ((∃ b ∈ b0 :: rest, b.shape.1 ≠ b0.shape.1) →
      hstack (b0 :: rest) fidF fidA =
        .error (.valueError
          "Block operator horizontal concatenation failed: row mismatch.")) ∧
    ((∃ b ∈ b0 :: rest, b.shape.2 ≠ b0.shape.2) →
      vstackOp (b0 :: rest) fidF fidA =
        .error (.valueError
          "Block operator vertical concatenation failed: column mismatch.")) := by
  refine ⟨rfl, rfl, ?_, ?_⟩
  · intro hmis
    simp only [hstack]
    rw [if_neg]
    simp only [List.all_eq_true, not_forall]
    obtain ⟨b, hb, hne⟩ := hmis
    exact ⟨b, hb, by simpa using hne⟩
  · intro hmis
    simp only [vstackOp]
    rw [if_neg]
    simp only [List.all_eq_true, not_forall]
    obtain ⟨b, hb, hne⟩ := hmis
    exact ⟨b, hb, by simpa using hne⟩

/-- C8 amended witness: the concrete mismatching lists produce the
fixed ValueError messages. -/
theorem C8_amended_witness :
    (∃ b ∈ [exOpNoAdj, exOpRows2], b.shape.1 ≠ exOpNoAdj.shape.1) ∧
    hstack [exOpNoAdj, exOpRows2] 3 4 =
      .error (.valueError
        "Block operator horizontal concatenation failed: row mismatch.") ∧
    (∃ b ∈ [exOpNoAdj, exOpCols2], b.shape.2 ≠ exOpNoAdj.shape.2) ∧
    vstackOp [exOpNoAdj, exOpCols2] 3 4 =
      .error (.valueError
        "Block operator vertical concatenation failed: column mismatch.") := by
  obtain ⟨_, _, hh, hv⟩ := C8_amended 3 4 exOpNoAdj [exOpRows2]
  obtain ⟨_, _, _, hv2⟩ := C8_amended 3 4 exOpNoAdj [exOpCols2]
  refine ⟨⟨exOpRows2, by simp, by decide⟩, hh ⟨exOpRows2, by simp, by decide⟩,
    ⟨exOpCols2, by simp, by decide⟩, hv2 ⟨exOpCols2, by simp, by decide⟩⟩

/-- C9 counterexample: a 3-tuple shape fails with `AssertionError`
while the shape `(0, 1)` fails with `ValueError`; the two failures are
of different exception kinds, so there is no single `InvalidShape`
condition covering malformed shapes (no such class exists in
src/pyop/error.py). -/
theorem C9_counterexample :
    LinearOperator.init ⟨true, [.pyInt 1, .pyInt 2, .pyInt 3]⟩ (idFn 0) none =
      .error .assertionError ∧
    LinearOperator.init ⟨true, [.pyInt 0, .pyInt 1]⟩ (idFn 0) none =
      .error (.valueError "shape of LinearOperator must be positive.") ∧
    PyErr.kind .assertionError ≠
      PyErr.kind (.valueError "shape of LinearOperator must be positive.") := by
  exact ⟨rfl, rfl, by decide⟩

/-- C9 amended: constructing a LinearOperator fails with
`AssertionError` when the shape argument is not a 2-element tuple,
with `ValueError` (message "shape of LinearOperator contain
integers") when either entry is not an int, and with `ValueError`
(message "shape of LinearOperator must be positive.") when an entry is
non-positive; it succeeds for every 2-tuple of positive integers. -/
theorem C9_amended (sh : PyShapeArg) (f : Fn) (adj : Option Fn) :
    (¬(sh.elems.length = 2 ∧ sh.isTuple = true) →
      LinearOperator.init sh f adj = .error .assertionError) ∧
    (∀ a b, sh.elems = [a, b] → sh.isTuple = true →
      ((a = .nonInt ∨ b = .nonInt →
        LinearOperator.init sh f adj =
          .error (.valueError "shape of LinearOperator contain integers")) ∧
       (∀ r c, a = .pyInt r → b = .pyInt c →
        ((r ≤ 0 ∨ c ≤ 0 →
          LinearOperator.init sh f adj =
            .error (.valueError "shape of LinearOperator must be positive.")) ∧
         (0 < r → 0 < c →
          LinearOperator.init sh f adj = .ok ⟨(r, c), f, adj⟩))))) := by
  obtain ⟨tup, elems⟩ := sh
  constructor
  · intro hbad
    simp only [LinearOperator.init]
    rw [if_neg hbad]
  · intro a b helems htup
    simp only at helems htup
    subst helems
    subst htup
    constructor
    · intro hni
      simp only [LinearOperator.init]
      rw [if_pos ⟨rfl, trivial⟩]
      rcases hni with h | h
      · subst h
        cases b <;> rfl
      · subst h
        cases a <;> rfl
    · intro r c ha hb
      subst ha
      subst hb
      constructor
      · intro hle
        simp only [LinearOperator.init, initChecked]
        rw [if_pos ⟨rfl, trivial⟩]
        show (if r ≤ 0 ∨ c ≤ 0 then _ else _) = _
        rw [if_pos hle]
      · intro hr hc
        simp only [LinearOperator.init, initChecked]
        rw [if_pos ⟨rfl, trivial⟩]
        show (if r ≤ 0 ∨ c ≤ 0 then _ else _) = _
        rw [if_neg (by push_neg; exact ⟨hr, hc⟩)]

/-- C9 amended witness: the four constructor behaviours at concrete
shape arguments. -/
theorem C9_amended_witness :
    LinearOperator.init ⟨false, [.pyInt 2, .pyInt 2]⟩ (idFn 0) none =
      .error .assertionError ∧
    LinearOperator.init ⟨true, [.pyInt 2, .nonInt]⟩ (idFn 0) none =
      .error (.valueError "shape of LinearOperator contain integers") ∧
    LinearOperator.init ⟨true, [.pyInt (-1), .pyInt 2]⟩ (idFn 0) none =
      .error (.valueError "shape of LinearOperator must be positive.") ∧
    LinearOperator.init ⟨true, [.pyInt 2, .pyInt 3]⟩ (idFn 0) none =
      .ok ⟨(2, 3), idFn 0, none⟩ := by
  refine ⟨(C9_amended ⟨false, _⟩ (idFn 0) none).1 (by simp), ?_, ?_, ?_⟩
  · exact (((C9_amended ⟨true, _⟩ (idFn 0) none).2 (.pyInt 2) .nonInt rfl
      rfl).1 (Or.inr rfl))
  · exact ((((C9_amended ⟨true, _⟩ (idFn 0) none).2 (.pyInt (-1)) (.pyInt 2)
      rfl rfl).2 (-1) 2 rfl rfl).1 (Or.inl (by norm_num)))
  · exact ((((C9_amended ⟨true, _⟩ (idFn 0) none).2 (.pyInt 2) (.pyInt 3)
      rfl rfl).2 2 3 rfl rfl).2 (by norm_num) (by norm_num))

/-- Taking `b.T` across a list of operators with positive shapes stops
with `MissingAdjoint` as soon as one operator lacks an adjoint. -/
theorem mapM_T_missing (l : List LinearOperator)
    (hpos : ∀ b ∈ l, 0 < b.shape.1 ∧ 0 < b.shape.2)
    (hmiss : ∃ b ∈ l, b.adjoint = none) :
    l.mapM LinearOperator.T = .error .missingAdjoint := by
  induction l with
  | nil => simp at hmiss
  | cons b tl ih =>
      rw [List.mapM_cons]
      cases hb : b.adjoint with
      | none =>
          have : b.T = .error .missingAdjoint := by
            simp [LinearOperator.T, hb]
          rw [this]
          rfl
      | some g =>
          have hbp := hpos b (List.mem_cons_self _ _)
          have hbT : b.T = .ok ⟨(b.shape.2, b.shape.1), g, some b.forward⟩ := by
            simp only [LinearOperator.T, hb, initChecked]
            rw [if_neg (by push_neg; exact ⟨hbp.2, hbp.1⟩)]
          rw [hbT]
          have htl : tl.mapM LinearOperator.T = .error .missingAdjoint := by
            apply ih
            · intro x hx
              exact hpos x (List.mem_cons_of_mem _ hx)
            · obtain ⟨x, hx, hxn⟩ := hmiss
              rcases List.mem_cons.mp hx with h | h
              · subst h
                rw [hb] at hxn
                cases hxn
              · exact ⟨x, h, hxn⟩
          show (tl.mapM LinearOperator.T).bind _ = _
          rw [htl]
          rfl

/-- C10: `hstack` and `vstack` take every child's transpose eagerly at
construction (to build the composite adjoint), so stacking a list that
contains an operator without an adjoint — even when all shape checks
pass — raises `MissingAdjoint` immediately, and `bmat` inherits this;
forward-only use of a stacked operator is impossible. -/
theorem C10_eager_transpose (blocks : List LinearOperator) (fidF fidA : Nat)
    (hpos : ∀ b ∈ blocks, 0 < b.shape.1 ∧ 0 < b.shape.2)
    (hmiss : ∃ b ∈ blocks, b.adjoint = none) :
    (∀ b0 rest, blocks = b0 :: rest →
      (∀ b ∈ blocks, b.shape.1 = b0.shape.1) →
      hstack blocks fidF fidA = .error .missingAdjoint) ∧
    (∀ b0 rest, blocks = b0 :: rest →
      (∀ b ∈ blocks, b.shape.2 = b0.shape.2) →
      vstackOp blocks fidF fidA = .error .missingAdjoint) ∧
    (∀ b0 rest, blocks = b0 :: rest →
      (∀ b ∈ blocks, b.shape.1 = b0.shape.1) →
      bmat [blocks] fidF fidA = .error .missingAdjoint) := by
  have hmapm := mapM_T_missing blocks hpos hmiss
  refine ⟨?_, ?_, ?_⟩
  · intro b0 rest hb hall
    subst hb
    simp only [hstack]
    rw [if_pos (by simp only [List.all_eq_true]
                   intro b hb
                   simpa using hall b hb)]
    rw [hmapm]
  · intro b0 rest hb hall
    subst hb
    simp only [vstackOp]
    rw [if_pos (by simp only [List.all_eq_true]
                   intro b hb
                   simpa using hall b hb)]
    rw [hmapm]
  · intro b0 rest hb hall
    have hh : hstack blocks fidF fidA = .error .missingAdjoint := by
      subst hb
      simp only [hstack]
      rw [if_pos (by simp only [List.all_eq_true]
                     intro b hb
                     simpa using hall b hb)]
      rw [hmapm]
    simp only [bmat]
    rw [if_neg (by simp)]
    rw [List.mapM_cons, hh]
    rfl

/-- C10 witness: stacking the single adjoint-less operator raises
`MissingAdjoint` at construction for `hstack`, `vstack` and `bmat`. -/
theorem C10_eager_transpose_witness :
    hstack [exOpNoAdj] 0 1 = .error .missingAdjoint ∧
    vstackOp [exOpNoAdj] 0 1 = .error .missingAdjoint ∧
    bmat [[exOpNoAdj]] 0 1 = .error .missingAdjoint := by
  have hpos : ∀ b ∈ [exOpNoAdj], 0 < b.shape.1 ∧ 0 < b.shape.2 := by
    intro b hb
    rcases List.mem_singleton.mp hb with rfl
    exact ⟨by decide, by decide⟩
  have hrows : ∀ b ∈ [exOpNoAdj], b.shape.1 = exOpNoAdj.shape.1 := by
    intro b hb
    rcases List.mem_singleton.mp hb with rfl
    rfl
  have hcols : ∀ b ∈ [exOpNoAdj], b.shape.2 = exOpNoAdj.shape.2 := by
    intro b hb
    rcases List.mem_singleton.mp hb with rfl
    rfl
  obtain ⟨hh, hv, hb⟩ := C10_eager_transpose [exOpNoAdj] 0 1 hpos
    ⟨exOpNoAdj, List.mem_singleton_self _, rfl⟩
  exact ⟨hh exOpNoAdj [] rfl hrows, hv exOpNoAdj [] rfl hcols,
    hb exOpNoAdj [] rfl hrows⟩

/-- Anatomy of a successful `__call__`: the input shape upgraded, the
inner-dimension check passed, the kernel produced the result, and the
result's shape upgraded to `(rows, input_columns)`. -/
theorem call_ok_shape {A : LinearOperator} {x res : NDArray}
    (h : A.call x = .ok res) :
    ∃ xs, upgradeShapeToMatrix x.shape = .ok xs ∧
      A.shape.2 = x.leadingDim ∧
      A.forward.app x = .ok res ∧
      upgradeShapeToMatrix res.shape = .ok (A.shape.1, xs.2) := by
  unfold LinearOperator.call at h
  split at h
  · cases h
  · rename_i xs hxs
    split at h
    · rename_i hdim
      split at h
      · cases h
      · rename_i r hr
        split at h
        · cases h
        · rename_i rs hrs
          split at h
          · rename_i hok
            cases h
            exact ⟨xs, hxs, hdim, hr, by rw [hrs, hok]⟩
          · cases h
    · cases h

/-- If an operator's kernel computes `inner` on `y`, the input passes
the pre-checks, and every successful `inner` has the shape the
post-check expects, then `__call__` returns exactly `inner` (the same
value or the same error). -/
theorem call_wrap (C : LinearOperator) (y : NDArray) (xs : Int × Int)
    (inner : Except PyErr NDArray)
    (happ : C.forward.app y = inner)
    (hxs : upgradeShapeToMatrix y.shape = .ok xs)
    (hlead : C.shape.2 = y.leadingDim)
    (hshape : ∀ r, inner = .ok r →
      upgradeShapeToMatrix r.shape = .ok (C.shape.1, xs.2)) :
    C.call y = inner := by
  unfold LinearOperator.call
  rw [hxs]
  show (if C.shape.2 = y.leadingDim then _ else _) = _
  rw [if_pos hlead, happ]
  cases inner with
  | error e => rfl
  | ok r =>
      show (match upgradeShapeToMatrix r.shape with
            | .error e => Except.error e
            | .ok rs => if rs = (C.shape.1, xs.2) then _ else _) = _
      rw [hshape r rfl]
      show (if ((C.shape.1, xs.2) : Int × Int) = (C.shape.1, xs.2)
            then _ else _) = _
      rw [if_pos rfl]

/-- C3: composing operators `A*B` (both with adjoints and positive
shapes) yields shape `(A.rows, B.cols)` when the inner dimensions
agree, and the transpose of the composite applies as `B.T (A.T y)` on
every compatible `y` — the order-reversed adjoint-of-product rule;
when `A.cols ≠ B.rows` the composition fails with
`InnerDimensionMismatch`. -/
theorem C3_compose_adjoint (A B : LinearOperator) (fidF fidA : Nat)
    (hA1 : 0 < A.shape.1) (hA2 : 0 < A.shape.2)
    (hB1 : 0 < B.shape.1) (hB2 : 0 < B.shape.2)
    (f g : Fn) (hfa : A.adjoint = some f) (hga : B.adjoint = some g) :
    (A.shape.2 = B.shape.1 →
      ∃ C At Bt, A.mulOp B fidF fidA = .ok C ∧
        C.shape = (A.shape.1, B.shape.2) ∧
        A.T = .ok At ∧ B.T = .ok Bt ∧
        ∃ Ct, C.T = .ok Ct ∧
          ∀ y, (y.shape.length = 1 ∨ y.shape.length = 2) →
            y.leadingDim = A.shape.1 →
            Ct.call y =
              (match At.call y with
               | .error e => .error e
               | .ok mid => Bt.call mid)) ∧
    (A.shape.2 ≠ B.shape.1 →
      A.mulOp B fidF fidA =
        .error (.innerDimensionMismatch (opStr A) (opStr B))) := by
  obtain ⟨⟨a1, a2⟩, af, aadj⟩ := A
  obtain ⟨⟨b1, b2⟩, bf, badj⟩ := B
  simp only at hA1 hA2 hB1 hB2 hfa hga
  subst hfa
  subst hga
  constructor
  · intro hinner
    simp only at hinner
    subst hinner
    have hAt : LinearOperator.T ⟨(a1, a2), af, some f⟩ =
        .ok ⟨(a2, a1), f, some af⟩ := by
      simp only [LinearOperator.T, initChecked]
      rw [if_neg (by push_neg; exact ⟨by omega, by omega⟩)]
    have hBt : LinearOperator.T ⟨(a2, b2), bf, some g⟩ =
        .ok ⟨(b2, a2), g, some bf⟩ := by
      simp only [LinearOperator.T, initChecked]
      rw [if_neg (by push_neg; exact ⟨by omega, by omega⟩)]
    have hC : LinearOperator.mulOp ⟨(a1, a2), af, some f⟩
        ⟨(a2, b2), bf, some g⟩ fidF fidA = .ok
          ⟨(a1, b2),
            ⟨fidF, fun x =>
              match LinearOperator.call ⟨(a2, b2), bf, some g⟩ x with
              | .error e => .error e
              | .ok bx => LinearOperator.call ⟨(a1, a2), af, some f⟩ bx⟩,
            some ⟨fidA, fun x =>
              match LinearOperator.T ⟨(a2, b2), bf, some g⟩ with
              | .error e => .error e
              | .ok Bt =>
                match LinearOperator.T ⟨(a1, a2), af, some f⟩ with
                | .error e => .error e
                | .ok At =>
                  match At.call x with
                  | .error e => .error e
                  | .ok mid => Bt.call mid⟩⟩ := by
      simp only [LinearOperator.mulOp, initChecked]
      rw [if_pos trivial]
      rw [if_neg (by push_neg; exact ⟨by omega, by omega⟩)]
    have hCt : LinearOperator.T
        ⟨(a1, b2),
          ⟨fidF, fun x =>
            match LinearOperator.call ⟨(a2, b2), bf, some g⟩ x with
            | .error e => .error e
            | .ok bx => LinearOperator.call ⟨(a1, a2), af, some f⟩ bx⟩,
          some ⟨fidA, fun x =>
            match LinearOperator.T ⟨(a2, b2), bf, some g⟩ with
            | .error e => .error e
            | .ok Bt =>
              match LinearOperator.T ⟨(a1, a2), af, some f⟩ with
              | .error e => .error e
              | .ok At =>
                match At.call x with
                | .error e => .error e
                | .ok mid => Bt.call mid⟩⟩ = .ok
        ⟨(b2, a1),
          ⟨fidA, fun x =>
            match LinearOperator.T ⟨(a2, b2), bf, some g⟩ with
            | .error e => .error e
            | .ok Bt =>
              match LinearOperator.T ⟨(a1, a2), af, some f⟩ with
              | .error e => .error e
              | .ok At =>
                match At.call x with
                | .error e => .error e
                | .ok mid => Bt.call mid⟩,
          some ⟨fidF, fun x =>
            match LinearOperator.call ⟨(a2, b2), bf, some g⟩ x with
            | .error e => .error e
            | .ok bx => LinearOperator.call ⟨(a1, a2), af, some f⟩ bx⟩⟩ := by
      simp only [LinearOperator.T, initChecked]
      rw [if_neg (by push_neg; exact ⟨by omega, by omega⟩)]
    refine ⟨_, _, _, hC, rfl, hAt, hBt, _, hCt, ?_⟩
    intro y hrank hlead
    obtain ⟨xs, hxs⟩ : ∃ xs, upgradeShapeToMatrix y.shape = .ok xs := by
      cases y with
      | scalar a => simp [NDArray.shape] at hrank
      | cube t => simp [NDArray.shape] at hrank
      | vec v => exact ⟨_, rfl⟩
      | mat m => exact ⟨_, rfl⟩
    refine call_wrap _ _ xs _ ?happ hxs ?hlead ?hshape
    case happ => simp only [hBt, hAt]
    case hlead => simpa using hlead.symm
    case hshape =>
      intro r
      cases hmid : LinearOperator.call ⟨(a2, a1), f, some af⟩ y with
      | error e =>
          intro hr
          exact absurd (show (Except.error e : Except PyErr NDArray) = .ok r
            from hr) (by simp)
      | ok mid =>
          intro hr
          have hr2 : LinearOperator.call ⟨(b2, a2), g, some bf⟩ mid = .ok r := hr
          obtain ⟨xs1, hxs1, _, _, hmidshape⟩ := call_ok_shape hmid
          rw [hxs] at hxs1
          cases hxs1
          obtain ⟨ms, hms, _, _, hr2shape⟩ := call_ok_shape hr2
          rw [hmidshape] at hms
          cases hms
          simpa using hr2shape
  · intro hne
    simp only [LinearOperator.mulOp]
    rw [if_neg (by simpa using hne)]

/-- A concrete 1×2 matrix-backed operator with adjoint. -/
def exMulA : LinearOperator :=
  ⟨(1, 2), ⟨10, npDot [[1, 2]]⟩, some ⟨11, npDot (npTranspose [[1, 2]])⟩⟩

/-- A concrete 2×1 matrix-backed operator with adjoint. -/
def exMulB : LinearOperator :=
  ⟨(2, 1), ⟨12, npDot [[3], [4]]⟩, some ⟨13, npDot (npTranspose [[3], [4]])⟩⟩

/-- C3 witness: `exMulA * exMulB` has shape (1,1) and its transpose
applied to `[5]` equals `exMulB.T (exMulA.T [5]) = [55]`; the
mismatched composition `exMulB * exMulB` raises
`InnerDimensionMismatch`. -/
theorem C3_compose_adjoint_witness :
    ∃ C At Bt, exMulA.mulOp exMulB 20 21 = .ok C ∧
      C.shape = (1, 1) ∧ exMulA.T = .ok At ∧ exMulB.T = .ok Bt ∧
      (∃ Ct, C.T = .ok Ct ∧
        Ct.call (.vec [5]) = .ok (.vec [55]) ∧
        At.call (.vec [5]) = .ok (.vec [5, 10]) ∧
        Bt.call (.vec [5, 10]) = .ok (.vec [55])) ∧
      exMulB.mulOp exMulB 22 23 =
        .error (.innerDimensionMismatch (opStr exMulB) (opStr exMulB)) := by
  obtain ⟨hsucc, _⟩ := C3_compose_adjoint exMulA exMulB 20 21
    (by decide) (by decide) (by decide) (by decide) _ _ rfl rfl
  obtain ⟨_, hmis⟩ := C3_compose_adjoint exMulB exMulB 22 23
    (by decide) (by decide) (by decide) (by decide) _ _ rfl rfl
  obtain ⟨C, At, Bt, hC, hshape, hAt, hBt, Ct, hCt, hcall⟩ := hsucc rfl
  have hAt2 : exMulA.T =
      .ok ⟨(2, 1), ⟨11, npDot (npTranspose [[1, 2]])⟩,
        some ⟨10, npDot [[1, 2]]⟩⟩ := rfl
  have hBt2 : exMulB.T =
      .ok ⟨(1, 2), ⟨13, npDot (npTranspose [[3], [4]])⟩,
        some ⟨12, npDot [[3], [4]]⟩⟩ := rfl
  rw [hAt2] at hAt
  rw [hBt2] at hBt
  injection hAt with hAt
  injection hBt with hBt
  subst hAt
  subst hBt
  have hy := hcall (.vec [5]) (Or.inl (by decide)) (by decide)
  refine ⟨C, _, _, hC, hshape, hAt2, hBt2, ⟨Ct, hCt, ?_, by decide, by decide⟩,
    hmis (by decide)⟩
  rw [hy]
  decide

/-- Anatomy of a successful transpose: the adjoint existed, the
(reversed) shape passed the positivity re-check, and the result swaps
the stored callables under the reversed shape. -/
theorem T_ok_elim {A B : LinearOperator} (h : A.T = .ok B) :
    ∃ g, A.adjoint = some g ∧ ¬(A.shape.2 ≤ 0 ∨ A.shape.1 ≤ 0) ∧
      B = ⟨(A.shape.2, A.shape.1), g, some A.forward⟩ := by
  unfold LinearOperator.T at h
  split at h
  · cases h
  · rename_i g hg
    simp only [initChecked] at h
    split at h
    · cases h
    · rename_i hpos
      cases h
      exact ⟨g, hg, hpos, rfl⟩

/-- Taking `b.T` across a list of operators that all have adjoints and
positive shapes succeeds, and relates the lists pointwise. -/
theorem mapM_T_ok (l : List LinearOperator)
    (h : ∀ b ∈ l, (∃ g, b.adjoint = some g) ∧ 0 < b.shape.1 ∧ 0 < b.shape.2) :
    ∃ ts, l.mapM LinearOperator.T = .ok ts ∧
      List.Forall₂ (fun A B => A.T = .ok B) l ts := by
  induction l with
  | nil => exact ⟨[], rfl, List.Forall₂.nil⟩
  | cons b tl ih =>
      obtain ⟨⟨g, hg⟩, h1, h2⟩ := h b (List.mem_cons_self _ _)
      have hbT : b.T = .ok ⟨(b.shape.2, b.shape.1), g, some b.forward⟩ := by
        simp only [LinearOperator.T, hg, initChecked]
        rw [if_neg (by push_neg; exact ⟨h2, h1⟩)]
      obtain ⟨ts, hts, hrel⟩ := ih (fun x hx => h x (List.mem_cons_of_mem _ hx))
      refine ⟨_ :: ts, ?_, List.Forall₂.cons hbT hrel⟩
      rw [List.mapM_cons, hbT]
      show (tl.mapM LinearOperator.T).bind _ = _
      rw [hts]
      rfl

/-- The transposed list's row/column counts are the original list's
column/row counts. -/
theorem forall2_T_shapes {l ts : List LinearOperator}
    (h : List.Forall₂ (fun A B => A.T = .ok B) l ts) :
    ts.map (fun b => b.shape.1) = l.map (fun b => b.shape.2) ∧
    ts.map (fun b => b.shape.2) = l.map (fun b => b.shape.1) := by
  induction h with
  | nil => exact ⟨rfl, rfl⟩
  | cons hab htl ih =>
      obtain ⟨g, _, _, hB⟩ := T_ok_elim hab
      subst hB
      exact ⟨by simp [ih.1], by simp [ih.2]⟩

/-- Note `__call__` only inspects the shape and the forward kernel's
input/output behaviour, so operators agreeing on those agree on every
application. -/
theorem call_congr {A B : LinearOperator} (hsh : A.shape = B.shape)
    (happ : ∀ x, A.forward.app x = B.forward.app x) (y : NDArray) :
    A.call y = B.call y := by
  unfold LinearOperator.call
  rw [hsh, happ y]

/-- The `matmat` wrapper is pointwise-determined by the wrapped
kernel. -/
theorem matmat_congr {f g : NDArray → Except PyErr NDArray}
    (h : ∀ z, f z = g z) (x : NDArray) : matmat f x = matmat g x := by
  cases x with
  | vec v => simp only [matmat, h]
  | scalar a => exact h _
  | mat m => exact h _
  | cube t => exact h _

/-- Applying each child's lazily-taken transpose to a slice equals
applying the already-transposed child: the pointwise content of
`blockDiag(ops).T` versus `blockDiag([A.T for A in ops])`. -/
theorem zip_mapM_applyT {l ts : List LinearOperator}
    (h : List.Forall₂ (fun A B => A.T = .ok B) l ts) :
    ∀ pieces : List (List (List Int)),
      (l.zip pieces).mapM (fun bv => applyT bv.1 bv.2) =
      (ts.zip pieces).mapM (fun bv => bv.1.call (.mat bv.2)) := by
  induction h with
  | nil => intro pieces; rfl
  | cons hab htl ih =>
      intro pieces
      cases pieces with
      | nil => rfl
      | cons p ps =>
          rename_i A B l' ts'
          simp only [List.zip_cons_cons, List.mapM_cons]
          have hhead : applyT A p = B.call (.mat p) := by
            simp only [applyT, hab]
          rw [hhead, ih ps]

/-- The kernels of `blockDiag(ops).T` and of `blockDiag` of the
transposed children agree on every input. -/
theorem blockDiag_core_swap {l ts : List LinearOperator}
    (h : List.Forall₂ (fun A B => A.T = .ok B) l ts) :
    ∀ x, blockDiagAdjointCore l x = blockDiagForwardCore ts x := by
  intro x
  cases x with
  | scalar a => rfl
  | vec v => rfl
  | cube t => rfl
  | mat m =>
      simp only [blockDiagAdjointCore, blockDiagForwardCore,
        (forall2_T_shapes h).2]
      rw [zip_mapM_applyT h]

/-- C7: for a non-empty list of operators, each with an adjoint and a
positive shape, `blockDiag(ops)` constructs, its transpose succeeds,
`blockDiag` of the transposed children constructs, and the two
operators agree on every input — the transpose of a block-diagonal
operator is the block-diagonal of the transposes, falling out of the
general forward/adjoint swap. -/
theorem C7_blockDiag_transpose (blocks : List LinearOperator)
    (fidF fidA fidG fidB : Nat) (hne : blocks ≠ [])
    (h : ∀ b ∈ blocks,
      (∃ g, b.adjoint = some g) ∧ 0 < b.shape.1 ∧ 0 < b.shape.2) :
    ∃ D ts Dt Dts,
      blockDiag blocks fidF fidA = .ok D ∧
      blocks.mapM LinearOperator.T = .ok ts ∧
      D.T = .ok Dt ∧
      blockDiag ts fidG fidB = .ok Dts ∧
      Dt.shape = Dts.shape ∧
      ∀ y, Dt.call y = Dts.call y := by
  obtain ⟨ts, hts, hrel⟩ := mapM_T_ok blocks h
  have hshapes := forall2_T_shapes hrel
  have hRpos : 0 < ((blocks.map (fun b => b.shape.1)).sum : Int) := by
    apply List.sum_pos
    · intro x hx
      obtain ⟨b, hb, rfl⟩ := List.mem_map.mp hx
      exact (h b hb).2.1
    · simpa using hne
  have hCpos : 0 < ((blocks.map (fun b => b.shape.2)).sum : Int) := by
    apply List.sum_pos
    · intro x hx
      obtain ⟨b, hb, rfl⟩ := List.mem_map.mp hx
      exact (h b hb).2.2
    · simpa using hne
  have hD : blockDiag blocks fidF fidA = .ok
      ⟨((blocks.map (fun b => b.shape.1)).sum,
        (blocks.map (fun b => b.shape.2)).sum),
        ⟨fidF, matmat (blockDiagForwardCore blocks)⟩,
        some ⟨fidA, matmat (blockDiagAdjointCore blocks)⟩⟩ := by
    simp only [blockDiag, initChecked]
    rw [if_neg (by simpa using hne)]
    rw [if_neg (by push_neg; exact ⟨hRpos, hCpos⟩)]
  have hDt : LinearOperator.T
      ⟨((blocks.map (fun b => b.shape.1)).sum,
        (blocks.map (fun b => b.shape.2)).sum),
        ⟨fidF, matmat (blockDiagForwardCore blocks)⟩,
        some ⟨fidA, matmat (blockDiagAdjointCore blocks)⟩⟩ = .ok
      ⟨((blocks.map (fun b => b.shape.2)).sum,
        (blocks.map (fun b => b.shape.1)).sum),
        ⟨fidA, matmat (blockDiagAdjointCore blocks)⟩,
        some ⟨fidF, matmat (blockDiagForwardCore blocks)⟩⟩ := by
    simp only [LinearOperator.T, initChecked]
    rw [if_neg (by push_neg; exact ⟨hCpos, hRpos⟩)]
  have htsne : ts ≠ [] := by
    intro hcon
    subst hcon
    cases hrel
    exact hne rfl
  have hDts : blockDiag ts fidG fidB = .ok
      ⟨((ts.map (fun b => b.shape.1)).sum,
        (ts.map (fun b => b.shape.2)).sum),
        ⟨fidG, matmat (blockDiagForwardCore ts)⟩,
        some ⟨fidB, matmat (blockDiagAdjointCore ts)⟩⟩ := by
    simp only [blockDiag, initChecked]
    rw [if_neg (by simpa using htsne)]
    rw [if_neg (by push_neg
                   rw [hshapes.1, hshapes.2]
                   exact ⟨hCpos, hRpos⟩)]
  refine ⟨_, _, _, _, hD, hts, hDt, hDts, ?_, ?_⟩
  · simp only [hshapes.1, hshapes.2]
  · intro y
    apply call_congr
    · simp only [hshapes.1, hshapes.2]
    · intro x
      exact matmat_congr (blockDiag_core_swap hrel) x

/-- A concrete 1×1 operator multiplying by 2. -/
def exMulC : LinearOperator := ⟨(1, 1), ⟨30, npDot [[2]]⟩, some ⟨31, npDot [[2]]⟩⟩

/-- A concrete 1×1 operator multiplying by 3. -/
def exMulD : LinearOperator := ⟨(1, 1), ⟨32, npDot [[3]]⟩, some ⟨33, npDot [[3]]⟩⟩

/-- C7 witness: for the concrete diagonal `diag(2, 3)`, the transpose
of the block-diagonal operator agrees with the block-diagonal of the
transposes on `[5, 7]`, both computing `[10, 21]`. -/
theorem C7_blockDiag_transpose_witness :
    ∃ D ts Dt Dts,
      blockDiag [exMulC, exMulD] 40 41 = .ok D ∧
      [exMulC, exMulD].mapM LinearOperator.T = .ok ts ∧
      D.T = .ok Dt ∧
      blockDiag ts 42 43 = .ok Dts ∧
      Dt.call (.vec [5, 7]) = Dts.call (.vec [5, 7]) ∧
      Dt.call (.vec [5, 7]) = .ok (.vec [10, 21]) := by
  obtain ⟨D, ts, Dt, Dts, hD, hts, hDt, hDts, _, hagree⟩ :=
    C7_blockDiag_transpose [exMulC, exMulD] 40 41 42 43 (by simp)
      (by intro b hb
          rcases List.mem_cons.mp hb with rfl | hb2
          · exact ⟨⟨_, rfl⟩, by decide, by decide⟩
          · rcases List.mem_singleton.mp hb2 with rfl
            exact ⟨⟨_, rfl⟩, by decide, by decide⟩)
  have hDconc : blockDiag [exMulC, exMulD] 40 41 = .ok
      ⟨(2, 2), ⟨40, matmat (blockDiagForwardCore [exMulC, exMulD])⟩,
        some ⟨41, matmat (blockDiagAdjointCore [exMulC, exMulD])⟩⟩ := rfl
  rw [hDconc] at hD
  injection hD with hD
  subst hD
  have hDtconc : LinearOperator.T
      ⟨(2, 2), ⟨40, matmat (blockDiagForwardCore [exMulC, exMulD])⟩,
        some ⟨41, matmat (blockDiagAdjointCore [exMulC, exMulD])⟩⟩ = .ok
      ⟨(2, 2), ⟨41, matmat (blockDiagAdjointCore [exMulC, exMulD])⟩,
        some ⟨40, matmat (blockDiagForwardCore [exMulC, exMulD])⟩⟩ := rfl
  rw [hDtconc] at hDt
  injection hDt with hDt
  subst hDt
  exact ⟨_, ts, _, Dts, hDconc, hts, hDtconc, hDts, hagree (.vec [5, 7]),
    by decide⟩

/-- Python's `sum` starts from the int `0`; adding `0` elementwise to
any array that survives pyop's shape checks returns the array
unchanged. -/
theorem npAdd_zero {rr : NDArray} {s : Int × Int}
    (h : upgradeShapeToMatrix rr.shape = .ok s) :
    npAdd (.scalar 0) rr = .ok rr := by
  cases rr with
  | scalar a => simp [NDArray.shape, upgradeShapeToMatrix] at h
  | vec v => simp [npAdd]
  | mat m => simp [npAdd]
  | cube t => simp [NDArray.shape, upgradeShapeToMatrix] at h

/-- The singleton `__horzcat` kernel on a rank-2 input: split produces
the single slice `m[0:cols]`, the one child is applied, and `sum`
starts from `0`. -/
theorem horzcatCore_single_eq (B : LinearOperator) (m : List (List Int)) :
    horzcatCore [B] (.mat m) =
    match B.call (.mat (m.take B.shape.2.toNat)) with
    | .error e => .error e
    | .ok r => npAdd (.scalar 0) r := by
  cases hB : B.call (.mat (m.take B.shape.2.toNat)) with
  | error e =>
      simp [horzcatCore, cumsum, npVsplit, npVsplitGo,
        List.foldlM_cons, List.foldlM_nil, hB]
  | ok r =>
      simp [horzcatCore, cumsum, npVsplit, npVsplitGo,
        List.foldlM_cons, List.foldlM_nil, hB]

/-- The singleton `__vertcat` kernel: the one child is applied to the
whole input and `np.vstack` of the one result is taken. -/
theorem vertcatCore_single_eq (B : LinearOperator) (x : NDArray) :
    vertcatCore [B] x =
    match B.call x with
    | .error e => .error e
    | .ok r => npVstack [r] := by
  cases hB : B.call x with
  | error e =>
      simp [vertcatCore, List.mapM_cons, List.mapM_nil, List.mapM.loop, hB]
  | ok r =>
      simp [vertcatCore, List.mapM_cons, List.mapM_nil, List.mapM.loop, hB]

/-- Applying `__call__` to an input of acceptable rank but wrong leading
dimension is the `InnerDimensionMismatch` rejection. -/
theorem call_mismatch {A : LinearOperator} {x : NDArray} {xs : Int × Int}
    (hxs : upgradeShapeToMatrix x.shape = .ok xs)
    (hne : ¬ (A.shape.2 = x.leadingDim)) :
    A.call x =
      .error (.innerDimensionMismatch (pairStr A.shape) (shapeStr x.shape)) := by
  unfold LinearOperator.call
  rw [hxs]
  show (if A.shape.2 = x.leadingDim then _ else _) = _
  rw [if_neg hne]

/-- numpy `np.vstack` of a single rectangular rank-2 array is that array. -/
theorem npVstack_single_mat (rr : List (List Int))
    (hrect : RectMat rr (width rr)) :
    npVstack [.mat rr] = .ok (.mat rr) := by
  have h1 : npVstack [.mat rr] =
      (if ((rr ++ []).all fun r =>
          decide (r.length = ((rr ++ []).headD []).length)) = true
       then Except.ok (NDArray.mat (rr ++ []))
       else Except.error
        (PyErr.valueError "all the input array dimensions must match")) := rfl
  rw [h1]
  simp only [List.append_nil]
  rw [if_pos]
  simp only [List.all_eq_true, decide_eq_true_eq]
  intro r hr
  rw [hrect r hr]
  rfl

/-- A one-element `__horzcat`-based operator of `B`'s shape behaves
exactly like `B` on rank-0, rank-2 and rank-3 inputs; on rank-1 inputs
it agrees with `B` whenever `B` treats a vector as its single-column
matrix (the `matmat` reshape/ravel round trip). -/
theorem horzcat_single_call (B : LinearOperator) (fid : Nat) (adj : Option Fn) :
    (∀ m : List (List Int),
      LinearOperator.call ⟨B.shape, ⟨fid, matmat (horzcatCore [B])⟩, adj⟩
        (.mat m) = B.call (.mat m)) ∧
    (∀ a : Int,
      LinearOperator.call ⟨B.shape, ⟨fid, matmat (horzcatCore [B])⟩, adj⟩
        (.scalar a) = B.call (.scalar a)) ∧
    (∀ t,
      LinearOperator.call ⟨B.shape, ⟨fid, matmat (horzcatCore [B])⟩, adj⟩
        (.cube t) = B.call (.cube t)) ∧
    (∀ v : List Int,
      B.call (.vec v) = (B.call (.mat (colMat v))).map npRavel →
      LinearOperator.call ⟨B.shape, ⟨fid, matmat (horzcatCore [B])⟩, adj⟩
        (.vec v) = B.call (.vec v)) := by
  refine ⟨?_, fun a => rfl, fun t => rfl, ?_⟩
  · intro m
    by_cases hm : B.shape.2 = (m.length : Int)
    · refine call_wrap _ _ ((m.length : Int), (width m : Int)) _
        ?happ rfl ?hlead ?hshape
      case happ =>
        show horzcatCore [B] (.mat m) = B.call (.mat m)
        have htake : m.take B.shape.2.toNat = m := by
          rw [hm]
          simp
        have hcore := horzcatCore_single_eq B m
        rw [htake] at hcore
        rw [hcore]
        cases hB : B.call (.mat m) with
        | error e => rfl
        | ok r =>
            obtain ⟨xs, _, _, _, hr⟩ := call_ok_shape hB
            show npAdd (.scalar 0) r = .ok r
            exact npAdd_zero hr
      case hlead => exact hm
      case hshape =>
        intro r hr
        obtain ⟨xs1, hxs1, _, _, hrs⟩ := call_ok_shape hr
        have hxs1' : (Except.ok (((m.length : Nat) : Int), ((width m : Nat) : Int)) :
            Except PyErr (Int × Int)) = .ok xs1 := hxs1
        injection hxs1' with hx
        rw [← hx] at hrs
        exact hrs
    · have hW := @call_mismatch
        ⟨B.shape, ⟨fid, matmat (horzcatCore [B])⟩, adj⟩
        (.mat m) ((m.length : Int), (width m : Int)) rfl hm
      have hB := @call_mismatch B (.mat m)
        ((m.length : Int), (width m : Int)) rfl hm
      rw [hW, hB]
  · intro v hvc
    by_cases hm : B.shape.2 = (v.length : Int)
    · refine call_wrap _ _ ((v.length : Int), 1) _ ?happ rfl ?hlead ?hshape
      case happ =>
        have hlcol : (colMat v).length = v.length := by simp [colMat]
        have htake : (colMat v).take B.shape.2.toNat = colMat v := by
          rw [hm]
          rw [show ((v.length : Int)).toNat = (colMat v).length by
            rw [hlcol]; simp]
          exact List.take_length _
        have hcore := horzcatCore_single_eq B (colMat v)
        rw [htake] at hcore
        show (match horzcatCore [B] (.mat (colMat v)) with
              | .error e => Except.error e
              | .ok res => .ok (npRavel res)) = B.call (.vec v)
        rw [hcore, hvc]
        cases hB : B.call (.mat (colMat v)) with
        | error e => rfl
        | ok r =>
            obtain ⟨xs, _, _, _, hr⟩ := call_ok_shape hB
            show (match npAdd (.scalar 0) r with
                  | .error e => Except.error e
                  | .ok res => .ok (npRavel res)) = (Except.ok r).map npRavel
            rw [npAdd_zero hr]
            rfl
      case hlead => exact hm
      case hshape =>
        intro r hr
        obtain ⟨xs1, hxs1, _, _, hrs⟩ := call_ok_shape hr
        have hxs1' : (Except.ok (((v.length : Nat) : Int), (1 : Int)) :
            Except PyErr (Int × Int)) = .ok xs1 := hxs1
        injection hxs1' with hx
        rw [← hx] at hrs
        exact hrs
    · have hW := @call_mismatch
        ⟨B.shape, ⟨fid, matmat (horzcatCore [B])⟩, adj⟩
        (.vec v) ((v.length : Int), 1) rfl hm
      have hB := @call_mismatch B (.vec v) ((v.length : Int), 1) rfl hm
      rw [hW, hB]

/-- A one-element `__vertcat`-based operator of `B`'s shape behaves
exactly like `B` on rank-0, rank-2 and rank-3 inputs, provided `B`'s
kernel returns rectangular rank-2 data on rank-2 inputs (as numpy
arrays always are; `np.vstack` of a single rank-1 result would
otherwise promote it to a 1-row matrix); on rank-1 inputs it agrees
with `B` whenever `B` additionally treats a vector as its
single-column matrix. -/
theorem vertcat_single_call (B : LinearOperator) (fid : Nat) (adj : Option Fn)
    (hmk : ∀ (mm : List (List Int)) (r : NDArray),
      B.forward.app (.mat mm) = .ok r →
      ∃ rr, r = .mat rr ∧ RectMat rr (width rr)) :
    (∀ m : List (List Int),
      LinearOperator.call ⟨B.shape, ⟨fid, matmat (vertcatCore [B])⟩, adj⟩
        (.mat m) = B.call (.mat m)) ∧
    (∀ a : Int,
      LinearOperator.call ⟨B.shape, ⟨fid, matmat (vertcatCore [B])⟩, adj⟩
        (.scalar a) = B.call (.scalar a)) ∧
    (∀ t,
      LinearOperator.call ⟨B.shape, ⟨fid, matmat (vertcatCore [B])⟩, adj⟩
        (.cube t) = B.call (.cube t)) ∧
    (∀ v : List Int,
      B.call (.vec v) = (B.call (.mat (colMat v))).map npRavel →
      LinearOperator.call ⟨B.shape, ⟨fid, matmat (vertcatCore [B])⟩, adj⟩
        (.vec v) = B.call (.vec v)) := by
  refine ⟨?_, fun a => rfl, fun t => rfl, ?_⟩
  · intro m
    by_cases hm : B.shape.2 = (m.length : Int)
    · refine call_wrap _ _ ((m.length : Int), (width m : Int)) _
        ?happ rfl ?hlead ?hshape
      case happ =>
        show vertcatCore [B] (.mat m) = B.call (.mat m)
        rw [vertcatCore_single_eq]
        cases hB : B.call (.mat m) with
        | error e => rfl
        | ok r =>
            obtain ⟨xs, _, _, happf, hr⟩ := call_ok_shape hB
            obtain ⟨rr, rfl, hrect⟩ := hmk m r happf
            show npVstack [.mat rr] = .ok (.mat rr)
            exact npVstack_single_mat rr hrect
      case hlead => exact hm
      case hshape =>
        intro r hr
        obtain ⟨xs1, hxs1, _, _, hrs⟩ := call_ok_shape hr
        have hxs1' : (Except.ok (((m.length : Nat) : Int), ((width m : Nat) : Int)) :
            Except PyErr (Int × Int)) = .ok xs1 := hxs1
        injection hxs1' with hx
        rw [← hx] at hrs
        exact hrs
    · have hW := @call_mismatch
        ⟨B.shape, ⟨fid, matmat (vertcatCore [B])⟩, adj⟩
        (.mat m) ((m.length : Int), (width m : Int)) rfl hm
      have hB := @call_mismatch B (.mat m)
        ((m.length : Int), (width m : Int)) rfl hm
      rw [hW, hB]
  · intro v hvc
    by_cases hm : B.shape.2 = (v.length : Int)
    · refine call_wrap _ _ ((v.length : Int), 1) _ ?happ rfl ?hlead ?hshape
      case happ =>
        show (match vertcatCore [B] (.mat (colMat v)) with
              | .error e => Except.error e
              | .ok res => .ok (npRavel res)) = B.call (.vec v)
        rw [vertcatCore_single_eq, hvc]
        cases hB : B.call (.mat (colMat v)) with
        | error e => rfl
        | ok r =>
            obtain ⟨xs, _, _, happf, hr⟩ := call_ok_shape hB
            obtain ⟨rr, rfl, hrect⟩ := hmk (colMat v) r happf
            show (match npVstack [.mat rr] with
                  | .error e => Except.error e
                  | .ok res => .ok (npRavel res)) =
              (Except.ok (NDArray.mat rr)).map npRavel
            rw [npVstack_single_mat rr hrect]
            rfl
      case hlead => exact hm
      case hshape =>
        intro r hr
        obtain ⟨xs1, hxs1, _, _, hrs⟩ := call_ok_shape hr
        have hxs1' : (Except.ok (((v.length : Nat) : Int), (1 : Int)) :
            Except PyErr (Int × Int)) = .ok xs1 := hxs1
        injection hxs1' with hx
        rw [← hx] at hrs
        exact hrs
    · have hW := @call_mismatch
        ⟨B.shape, ⟨fid, matmat (vertcatCore [B])⟩, adj⟩
        (.vec v) ((v.length : Int), 1) rfl hm
      have hB := @call_mismatch B (.vec v) ((v.length : Int), 1) rfl hm
      rw [hW, hB]

/-- C6 counterexample: `hstack([A])` and `vstack([A])` do not behave
like `A` for every operator `A` — for the adjoint-less operator
`exOpNoAdj`, which itself exists and applies normally, both stacks
raise `MissingAdjoint` already at construction. -/
theorem C6_counterexample :
    hstack [exOpNoAdj] 60 61 = .error .missingAdjoint ∧
    vstackOp [exOpNoAdj] 60 61 = .error .missingAdjoint ∧
    exOpNoAdj.call (.mat [[5]]) = .ok (.mat [[5]]) := by
  exact ⟨rfl, rfl, by decide⟩

/-- C6 amended: for every operator `A` that has an adjoint and a
positive shape, `hstack([A])` and `vstack([A])` construct successfully
with `A`'s exact shape, and the general splitting logic makes them
behave like `A`: `hstack([A])` returns the same value or error as `A`
on every rank-0, rank-2 and rank-3 input, and on rank-1 inputs
whenever `A` treats a vector as its single-column matrix;
`vstack([A])` does the same provided `A`'s kernel returns rectangular
rank-2 data on rank-2 inputs; the two transposes agree with `A.T`
under the mirrored conditions.  (Without an adjoint, construction
itself fails with `MissingAdjoint`.) -/
theorem C6_one_element_stack (A : LinearOperator) (gA : Fn) (f1 f2 f3 f4 : Nat)
    (hadj : A.adjoint = some gA) (h1 : 0 < A.shape.1) (h2 : 0 < A.shape.2) :
    ∃ H V At,
      hstack [A] f1 f2 = .ok H ∧
      vstackOp [A] f3 f4 = .ok V ∧
      A.T = .ok At ∧
      H.shape = A.shape ∧ V.shape = A.shape ∧
      ((∀ m, H.call (.mat m) = A.call (.mat m)) ∧
       (∀ a, H.call (.scalar a) = A.call (.scalar a)) ∧
       (∀ t, H.call (.cube t) = A.call (.cube t)) ∧
       (∀ v, A.call (.vec v) = (A.call (.mat (colMat v))).map npRavel →
         H.call (.vec v) = A.call (.vec v))) ∧
      ((∀ mm rr0, A.forward.app (.mat mm) = .ok rr0 →
          ∃ rr, rr0 = .mat rr ∧ RectMat rr (width rr)) →
        (∀ m, V.call (.mat m) = A.call (.mat m)) ∧
        (∀ a, V.call (.scalar a) = A.call (.scalar a)) ∧
        (∀ t, V.call (.cube t) = A.call (.cube t)) ∧
        (∀ v, A.call (.vec v) = (A.call (.mat (colMat v))).map npRavel →
          V.call (.vec v) = A.call (.vec v))) ∧
      ∃ Ht Vt, H.T = .ok Ht ∧ V.T = .ok Vt ∧
        Ht.shape = At.shape ∧ Vt.shape = At.shape ∧
        ((∀ mm rr0, gA.app (.mat mm) = .ok rr0 →
            ∃ rr, rr0 = .mat rr ∧ RectMat rr (width rr)) →
          (∀ m, Ht.call (.mat m) = At.call (.mat m)) ∧
          (∀ a, Ht.call (.scalar a) = At.call (.scalar a)) ∧
          (∀ t, Ht.call (.cube t) = At.call (.cube t)) ∧
          (∀ v, At.call (.vec v) = (At.call (.mat (colMat v))).map npRavel →
            Ht.call (.vec v) = At.call (.vec v))) ∧
        ((∀ m, Vt.call (.mat m) = At.call (.mat m)) ∧
         (∀ a, Vt.call (.scalar a) = At.call (.scalar a)) ∧
         (∀ t, Vt.call (.cube t) = At.call (.cube t)) ∧
         (∀ v, At.call (.vec v) = (At.call (.mat (colMat v))).map npRavel →
           Vt.call (.vec v) = At.call (.vec v))) := by
  obtain ⟨⟨r, c⟩, fA, aadj⟩ := A
  simp only at hadj h1 h2
  subst hadj
  have hAt : LinearOperator.T ⟨(r, c), fA, some gA⟩ =
      .ok ⟨(c, r), gA, some fA⟩ := by
    simp only [LinearOperator.T, initChecked]
    rw [if_neg (by push_neg; exact ⟨by omega, by omega⟩)]
  have hts : ([⟨(r, c), fA, some gA⟩] : List LinearOperator).mapM
      LinearOperator.T = .ok [⟨(c, r), gA, some fA⟩] := by
    simp [List.mapM_cons, List.mapM_nil, List.mapM.loop, hAt]
  have hH : hstack [⟨(r, c), fA, some gA⟩] f1 f2 = .ok
      ⟨(r, c), ⟨f1, matmat (horzcatCore [⟨(r, c), fA, some gA⟩])⟩,
        some ⟨f2, matmat (vertcatCore [(⟨(c, r), gA, some fA⟩ :
          LinearOperator)])⟩⟩ := by
    simp only [hstack, List.all_cons, List.all_nil, List.map_cons,
      List.map_nil, List.sum_cons, List.sum_nil, add_zero]
    rw [if_pos (by simp)]
    rw [hts]
    simp only [initChecked]
    rw [if_neg (by push_neg; exact ⟨by omega, by omega⟩)]
  have hV : vstackOp [⟨(r, c), fA, some gA⟩] f3 f4 = .ok
      ⟨(r, c), ⟨f3, matmat (vertcatCore [⟨(r, c), fA, some gA⟩])⟩,
        some ⟨f4, matmat (horzcatCore [(⟨(c, r), gA, some fA⟩ :
          LinearOperator)])⟩⟩ := by
    simp only [vstackOp, List.all_cons, List.all_nil, List.map_cons,
      List.map_nil, List.sum_cons, List.sum_nil, add_zero]
    rw [if_pos (by simp)]
    rw [hts]
    simp only [initChecked]
    rw [if_neg (by push_neg; exact ⟨by omega, by omega⟩)]
  have hHt : LinearOperator.T
      ⟨(r, c), ⟨f1, matmat (horzcatCore [⟨(r, c), fA, some gA⟩])⟩,
        some ⟨f2, matmat (vertcatCore [(⟨(c, r), gA, some fA⟩ :
          LinearOperator)])⟩⟩ = .ok
      ⟨(c, r), ⟨f2, matmat (vertcatCore [(⟨(c, r), gA, some fA⟩ :
          LinearOperator)])⟩,
        some ⟨f1, matmat (horzcatCore [⟨(r, c), fA, some gA⟩])⟩⟩ := by
    simp only [LinearOperator.T, initChecked]
    rw [if_neg (by push_neg; exact ⟨by omega, by omega⟩)]
  have hVt : LinearOperator.T
      ⟨(r, c), ⟨f3, matmat (vertcatCore [⟨(r, c), fA, some gA⟩])⟩,
        some ⟨f4, matmat (horzcatCore [(⟨(c, r), gA, some fA⟩ :
          LinearOperator)])⟩⟩ = .ok
      ⟨(c, r), ⟨f4, matmat (horzcatCore [(⟨(c, r), gA, some fA⟩ :
          LinearOperator)])⟩,
        some ⟨f3, matmat (vertcatCore [⟨(r, c), fA, some gA⟩])⟩⟩ := by
    simp only [LinearOperator.T, initChecked]
    rw [if_neg (by push_neg; exact ⟨by omega, by omega⟩)]
  obtain ⟨hm1, hm2, hm3, hm4⟩ := horzcat_single_call
    ⟨(r, c), fA, some gA⟩ f1
    (some ⟨f2, matmat (vertcatCore [(⟨(c, r), gA, some fA⟩ :
      LinearOperator)])⟩)
  obtain ⟨hvt1, hvt2, hvt3, hvt4⟩ := horzcat_single_call
    ⟨(c, r), gA, some fA⟩ f4
    (some ⟨f3, matmat (vertcatCore [(⟨(r, c), fA, some gA⟩ :
      LinearOperator)])⟩)
  refine ⟨_, _, _, hH, hV, hAt, rfl, rfl, ⟨hm1, hm2, hm3, hm4⟩, ?_, _, _,
    hHt, hVt, rfl, rfl, ?_, ⟨hvt1, hvt2, hvt3, hvt4⟩⟩
  · intro hmk
    exact vertcat_single_call ⟨(r, c), fA, some gA⟩ f3
      (some ⟨f4, matmat (horzcatCore [(⟨(c, r), gA, some fA⟩ :
        LinearOperator)])⟩) hmk
  · intro hmk
    exact vertcat_single_call ⟨(c, r), gA, some fA⟩ f2
      (some ⟨f1, matmat (horzcatCore [(⟨(r, c), fA, some gA⟩ :
        LinearOperator)])⟩) hmk

/-- A matrix-multiplication kernel (`m.dot`) returns rectangular
rank-2 data on every successful rank-2 input, as every numpy kernel
does. -/
theorem npDot_matKernel (M : List (List Int)) :
    ∀ (mm : List (List Int)) (r : NDArray), npDot M (.mat mm) = .ok r →
      ∃ rr, r = .mat rr ∧ RectMat rr (width rr) := by
  intro mm r h
  simp only [npDot] at h
  split at h
  · injection h with h
    refine ⟨matMul M mm, h.symm, ?_⟩
    intro row hrow
    simp only [matMul, List.mem_map] at hrow
    obtain ⟨row0, hmem, rfl⟩ := hrow
    cases M with
    | nil => simp at hmem
    | cons a as => simp [matMul, width]
  · cases h

/-- C6 witness: for the concrete matrix-backed `exMulA`, the
one-element stacks construct, share its shape, and agree with it (and
their transposes with its transpose) on concrete vector inputs. -/
theorem C6_one_element_stack_witness :
    ∃ H V At,
      hstack [exMulA] 70 71 = .ok H ∧
      vstackOp [exMulA] 72 73 = .ok V ∧
      exMulA.T = .ok At ∧
      H.shape = exMulA.shape ∧ V.shape = exMulA.shape ∧
      H.call (.vec [1, 1]) = exMulA.call (.vec [1, 1]) ∧
      H.call (.mat [[1], [1]]) = exMulA.call (.mat [[1], [1]]) ∧
      exMulA.call (.vec [1, 1]) = .ok (.vec [3]) ∧
      V.call (.vec [1, 1]) = exMulA.call (.vec [1, 1]) ∧
      ∃ Ht Vt, H.T = .ok Ht ∧ V.T = .ok Vt ∧
        Ht.call (.vec [5]) = At.call (.vec [5]) ∧
        Vt.call (.vec [5]) = At.call (.vec [5]) ∧
        At.call (.vec [5]) = .ok (.vec [5, 10]) := by
  obtain ⟨H, V, At, hH, hV, hAt, hshH, hshV, ⟨hm1, _, _, hm4⟩, hVfwd,
    Ht, Vt, hHt, hVt, _, _, hHtcall, ⟨hvt1, _, _, hvt4⟩⟩ :=
    C6_one_element_stack exMulA ⟨11, npDot (npTranspose [[1, 2]])⟩
      70 71 72 73 rfl (by decide) (by decide)
  have hAtconc : exMulA.T = .ok ⟨(2, 1), ⟨11, npDot (npTranspose [[1, 2]])⟩,
      some ⟨10, npDot [[1, 2]]⟩⟩ := rfl
  rw [hAtconc] at hAt
  injection hAt with hAt
  subst hAt
  have hvcA : exMulA.call (.vec [1, 1]) =
      (exMulA.call (.mat (colMat [1, 1]))).map npRavel := by decide
  have hvcAt : LinearOperator.call
      ⟨(2, 1), ⟨11, npDot (npTranspose [[1, 2]])⟩, some ⟨10, npDot [[1, 2]]⟩⟩
      (.vec [5]) =
      (LinearOperator.call
        ⟨(2, 1), ⟨11, npDot (npTranspose [[1, 2]])⟩, some ⟨10, npDot [[1, 2]]⟩⟩
        (.mat (colMat [5]))).map npRavel := by decide
  obtain ⟨_, _, _, hVvec⟩ := hVfwd (npDot_matKernel [[1, 2]])
  obtain ⟨_, _, _, hHtvec⟩ := hHtcall (npDot_matKernel (npTranspose [[1, 2]]))
  exact ⟨H, V, _, hH, hV, hAtconc, hshH, hshV, hm4 [1, 1] hvcA,
    hm1 [[1], [1]], by decide, hVvec [1, 1] hvcA,
    Ht, Vt, hHt, hVt, hHtvec [5] hvcAt, hvt4 [5] hvcAt, by decide⟩

end Pyop
